import Mathlib

/-!
Verification of the problem service (`problem.service.ts`) of lyrio.

The service is shallowly embedded: the relational store is a `DBState`
record of row lists, each service method becomes a pure function from
`DBState` (plus its arguments) to a result and a new `DBState`, and the
TypeORM transaction wrapper is modelled by fault injection: every
database call inside a transaction body is a numbered step that a fault
oracle may make fail, in which case the transaction rolls all of its
writes back and rethrows (none of the body's writes survive).

External collaborators that are not part of the source (the localized
content store, the file reference store, the privilege and ACL services,
the DTO shapes) are modelled from the spec, as marked on each definition.
-/

namespace Lyrio

/-- Locale codes (`@/common/locale.type`, external to the source): an
opaque code such as `en` or `zh_cn`, modelled as a string. -/
abbrev Locale := String

/-- Problem type enum (`problem.entity.ts`, external to the source),
modelled as an opaque string code. -/
abbrev ProblemType := String

/-- Problem file type enum (`problem-file.entity.ts`, external to the
source), modelled as an opaque string code. -/
abbrev ProblemFileType := String

/-- Sample data blob (`problem-sample-data.interface.ts`, external to the
source): an opaque structured value, modelled as a string. -/
abbrev ProblemSampleData := String

/-- Judge info blob, opaque to the service (replaced wholesale). -/
abbrev ProblemJudgeInfo := String

/-- `LocalizedContentType` from `localized-content.entity.ts`. -/
inductive LocalizedContentType where
  | PROBLEM_TITLE
  | PROBLEM_CONTENT
  | PROBLEM_TAG_NAME
deriving DecidableEq, Repr

/-- A row of the localized content store, keyed by
(objectId, type, locale). -/
structure LocalizedContentRow where
  objectId : Nat
  type : LocalizedContentType
  locale : Locale
  data : String
deriving DecidableEq, Repr

/-- `ProblemEntity` (`problem.entity.ts`): the problem row.
`displayId` is optional; the JavaScript `number` is modelled as `Int`. -/
structure ProblemEntity where
  id : Nat
  displayId : Option Int
  type : ProblemType
  isPublic : Bool
  ownerId : Nat
  locales : List Locale
  submissionCount : Int
  acceptedSubmissionCount : Int
deriving DecidableEq, Repr

/-- `ProblemJudgeInfoEntity`: one-to-one with the problem. -/
structure ProblemJudgeInfoEntity where
  problemId : Nat
  judgeInfo : ProblemJudgeInfo
deriving DecidableEq, Repr

/-- `ProblemSampleEntity`: one-to-one with the problem. -/
structure ProblemSampleEntity where
  problemId : Nat
  data : ProblemSampleData
deriving DecidableEq, Repr

/-- `ProblemFileEntity`: keyed by (problemId, type, filename), holding a
content handle `uuid` into the file reference store. -/
structure ProblemFileEntity where
  problemId : Nat
  type : ProblemFileType
  filename : String
  uuid : String
deriving DecidableEq, Repr

/-- `ProblemTagEntity`. -/
structure ProblemTagEntity where
  id : Nat
  color : String
  locales : List Locale
deriving DecidableEq, Repr

/-- `ProblemTagMapEntity`: the (problemId, problemTagId) association. -/
structure ProblemTagMapEntity where
  problemId : Nat
  problemTagId : Nat
deriving DecidableEq, Repr

/-- Modelled from the spec: a row of the File Reference Store, a
content-addressed blob keyed by its hash, carrying a handle (`uuid`), a
size and a reference count. -/
structure FileRow where
  uuid : String
  sha256 : String
  size : Nat
  referenceCount : Nat
deriving DecidableEq, Repr

/-- The relational store visible to the problem service: one list of
rows per table. -/
structure DBState where
  problems : List ProblemEntity
  judgeInfos : List ProblemJudgeInfoEntity
  problemSamples : List ProblemSampleEntity
  localizedContents : List LocalizedContentRow
  problemFiles : List ProblemFileEntity
  problemTags : List ProblemTagEntity
  problemTagMaps : List ProblemTagMapEntity
  files : List FileRow
deriving DecidableEq, Repr

/-- Key equality for localized content rows. -/
def lcKeyEq (r : LocalizedContentRow) (objectId : Nat) (t : LocalizedContentType)
    (locale : Locale) : Bool :=
  decide (r.objectId = objectId ∧ r.type = t ∧ r.locale = locale)

/-- Modelled from the spec: Localized Content Store `createOrUpdate`
(`localized-content.service.ts`, external to the source): upsert the text
at key (objectId, type, locale). -/
def lcCreateOrUpdate (rows : List LocalizedContentRow) (objectId : Nat)
    (t : LocalizedContentType) (locale : Locale) (data : String) :
    List LocalizedContentRow :=
  if rows.any (fun r => lcKeyEq r objectId t locale) then
    rows.map (fun r => if lcKeyEq r objectId t locale then { r with data := data } else r)
  else
    rows ++ [⟨objectId, t, locale, data⟩]

/-- Modelled from the spec: Localized Content Store `delete`; a `none`
locale means "all locales" of that (objectId, type). -/
def lcDelete (rows : List LocalizedContentRow) (objectId : Nat)
    (t : LocalizedContentType) (locale : Option Locale) : List LocalizedContentRow :=
  rows.filter (fun r =>
    !(decide (r.objectId = objectId) && decide (r.type = t) &&
      (locale.elim true (fun l => decide (r.locale = l)))))

/-- Modelled from the spec: Localized Content Store `get`. -/
def lcGet (rows : List LocalizedContentRow) (objectId : Nat)
    (t : LocalizedContentType) (locale : Locale) : Option String :=
  (rows.find? (fun r => lcKeyEq r objectId t locale)).map (fun r => r.data)

/-- Whether a row exists at key (objectId, type, locale). -/
def lcHasRow (rows : List LocalizedContentRow) (objectId : Nat)
    (t : LocalizedContentType) (locale : Locale) : Bool :=
  rows.any (fun r => lcKeyEq r objectId t locale)

/-- TypeORM `save` of a problem entity: update the row with the same
primary key in place, or insert it when absent. -/
def saveProblem (db : DBState) (p : ProblemEntity) : DBState :=
  if db.problems.any (fun q => q.id == p.id) then
    { db with problems := db.problems.map (fun q => if q.id == p.id then p else q) }
  else
    { db with problems := db.problems ++ [p] }

/-- TypeORM `save` of a sample entity (primary key `problemId`). -/
def saveProblemSample (db : DBState) (s : ProblemSampleEntity) : DBState :=
  if db.problemSamples.any (fun q => q.problemId == s.problemId) then
    { db with problemSamples :=
        db.problemSamples.map (fun q => if q.problemId == s.problemId then s else q) }
  else
    { db with problemSamples := db.problemSamples ++ [s] }

/-- The SQL statements issued by `setProblemTags`, recorded so that "no
insert is attempted on an empty tag list" is observable. -/
inductive TagSqlAction where
  | deleteMaps (problemId : Nat)
  | insertMaps (rows : List ProblemTagMapEntity)
deriving DecidableEq, Repr

/-- `setProblemTags`: delete every (problemId, *) association row, then,
unless the tag list is empty, bulk-insert one row per tag. Returns the
new association table and the list of SQL statements issued. -/
def setProblemTags (problem : ProblemEntity) (problemTags : List ProblemTagEntity)
    (tagMaps : List ProblemTagMapEntity) :
    List ProblemTagMapEntity × List TagSqlAction :=
  let afterDelete := tagMaps.filter (fun m => !(m.problemId == problem.id))
  if problemTags.length = 0 then
    (afterDelete, [TagSqlAction.deleteMaps problem.id])
  else
    let newRows := problemTags.map (fun t => ⟨problem.id, t.id⟩)
    (afterDelete ++ newRows,
     [TagSqlAction.deleteMaps problem.id, TagSqlAction.insertMaps newRows])

/-- `UserEntity` (`user.entity.ts`, external to the source): only the
fields the problem service consults. -/
structure UserEntity where
  id : Nat
  isAdmin : Bool
deriving DecidableEq, Repr

/-- Modelled from the spec: one localized entry of the creation-time
statement DTO (`ProblemLocalizedContentDto`); title and content are both
present at creation. Content section lists are modelled by their
JSON-serialized form. -/
structure ProblemLocalizedContentDto where
  locale : Locale
  title : String
  contentSections : String
deriving DecidableEq, Repr

/-- Modelled from the spec: `ProblemStatementDto` for `createProblem`. -/
structure ProblemStatementDto where
  localizedContents : List ProblemLocalizedContentDto
  samples : ProblemSampleData
deriving DecidableEq, Repr

/-- Modelled from the spec: one localized entry of
`UpdateProblemStatementRequestDto`; a null (`none`) title or content
field requests that the stored field be left untouched. -/
structure UpdateLocalizedContentDto where
  locale : Locale
  title : Option String
  contentSections : Option String
deriving DecidableEq, Repr

/-- Modelled from the spec: `UpdateProblemStatementRequestDto`. -/
structure UpdateProblemStatementRequestDto where
  localizedContents : List UpdateLocalizedContentDto
  samples : Option ProblemSampleData
deriving DecidableEq, Repr

/-- `JSON.stringify` applied to a section list. Section lists are
modelled by their serialized text, so serialization is the identity on
that representation. -/
def jsonStringify (sections : String) : String := sections

/-- The auto-increment id assigned to a newly inserted problem row. -/
def nextProblemId (db : DBState) : Nat :=
  db.problems.foldl (fun m p => max m p.id) 0 + 1

/-- TypeORM `save` of a judge info entity (primary key `problemId`). -/
def saveJudgeInfo (db : DBState) (j : ProblemJudgeInfoEntity) : DBState :=
  if db.judgeInfos.any (fun q => q.problemId == j.problemId) then
    { db with judgeInfos :=
        db.judgeInfos.map (fun q => if q.problemId == j.problemId then j else q) }
  else
    { db with judgeInfos := db.judgeInfos ++ [j] }

/-- The `for` loop of `createProblem`: for each localized entry, upsert
its title row and then its content row. -/
def createStatementContents (pid : Nat) (contents : List ProblemLocalizedContentDto)
    (rows : List LocalizedContentRow) : List LocalizedContentRow :=
  match contents with
  | [] => rows
  | lc :: rest =>
    let rows1 := lcCreateOrUpdate rows pid LocalizedContentType.PROBLEM_TITLE lc.locale lc.title
    let rows2 := lcCreateOrUpdate rows1 pid LocalizedContentType.PROBLEM_CONTENT lc.locale
      (jsonStringify lc.contentSections)
    createStatementContents pid rest rows2

/-- `createProblem` (successful transaction): build the problem row with
no display id, non-public, owner from the caller and `locales` from the
statement entries; save it; create the judge info row with the type's
default configuration; create the sample row; upsert title and content
for every statement entry; replace the tag set. `getDefaultJudgeInfo`
stands for the external `problemJudgeInfoService.getDefaultJudgeInfo`. -/
def createProblem (getDefaultJudgeInfo : ProblemType → ProblemJudgeInfo)
    (owner : UserEntity) (ptype : ProblemType) (statement : ProblemStatementDto)
    (tags : List ProblemTagEntity) (db : DBState) : ProblemEntity × DBState :=
  let problem : ProblemEntity :=
    { id := nextProblemId db
      displayId := none
      type := ptype
      isPublic := false
      ownerId := owner.id
      locales := statement.localizedContents.map (fun lc => lc.locale)
      submissionCount := 0
      acceptedSubmissionCount := 0 }
  let db1 := saveProblem db problem
  let db2 := saveJudgeInfo db1 ⟨problem.id, getDefaultJudgeInfo ptype⟩
  let db3 := saveProblemSample db2 ⟨problem.id, statement.samples⟩
  let db4 := { db3 with localizedContents :=
    createStatementContents problem.id statement.localizedContents db3.localizedContents }
  let maps := (setProblemTags problem tags db4.problemTagMaps).1
  (problem, { db4 with problemTagMaps := maps })

/-- The sample step of `updateProblemStatement`: when the request carries
samples, load the problem's sample row and overwrite its data. A missing
sample row makes the body throw (reading `.data` of `undefined`), which
aborts the transaction: result `none`. -/
def applySamples (problem : ProblemEntity) (samples : Option ProblemSampleData)
    (db : DBState) : Option DBState :=
  match samples with
  | none => some db
  | some s =>
    match db.problemSamples.find? (fun ps => ps.problemId == problem.id) with
    | none => none
    | some ps => some (saveProblemSample db { ps with data := s })

/-- The deletion loop of `updateProblemStatement`: for each locale being
removed, delete its title row and then its content row. -/
def deleteLocalesData (pid : Nat) (locales : List Locale)
    (rows : List LocalizedContentRow) : List LocalizedContentRow :=
  match locales with
  | [] => rows
  | l :: rest =>
    let rows1 := lcDelete rows pid LocalizedContentType.PROBLEM_TITLE (some l)
    let rows2 := lcDelete rows1 pid LocalizedContentType.PROBLEM_CONTENT (some l)
    deleteLocalesData pid rest rows2

/-- The upsert loop of `updateProblemStatement`: for each requested
entry, upsert the title when non-null, then the content when non-null. -/
def upsertContentsData (pid : Nat) (contents : List UpdateLocalizedContentDto)
    (rows : List LocalizedContentRow) : List LocalizedContentRow :=
  match contents with
  | [] => rows
  | lc :: rest =>
    let rows1 := match lc.title with
      | some t => lcCreateOrUpdate rows pid LocalizedContentType.PROBLEM_TITLE lc.locale t
      | none => rows
    let rows2 := match lc.contentSections with
      | some c => lcCreateOrUpdate rows1 pid LocalizedContentType.PROBLEM_CONTENT lc.locale
          (jsonStringify c)
      | none => rows1
    upsertContentsData pid rest rows2

/-- The body of `updateProblemStatement` when every database call
succeeds: sample overwrite, deletion of removed locales' rows, upsert of
non-null fields, tag replacement, and the save of the problem row whose
in-memory `locales` was reassigned to the requested locales. Returns the
saved problem entity and the new store, or `none` when the body throws
(missing sample row). -/
def applyUpdateProblemStatement (problem : ProblemEntity)
    (request : UpdateProblemStatementRequestDto) (tags : List ProblemTagEntity)
    (db : DBState) : Option (ProblemEntity × DBState) :=
  match applySamples problem request.samples db with
  | none => none
  | some db1 =>
    let newLocales := request.localizedContents.map (fun lc => lc.locale)
    let deletingLocales := problem.locales.filter (fun l => !(newLocales.contains l))
    let db2 := { db1 with
      localizedContents := deleteLocalesData problem.id deletingLocales db1.localizedContents }
    let problem2 := { problem with locales := newLocales }
    let db3 := { db2 with
      localizedContents := upsertContentsData problem.id request.localizedContents db2.localizedContents }
    let db4 := { db3 with problemTagMaps := (setProblemTags problem2 tags db3.problemTagMaps).1 }
    some (problem2, saveProblem db4 problem2)

/-- One `createOrUpdate` call as issued by the upsert loop of
`updateProblemStatement`. The source passes no
`transactionalEntityManager` to these calls — unlike the delete calls
just above them and unlike `createProblem`'s upserts — so each runs on
the default connection and autocommits outside the transaction. -/
structure UpsertCall where
  type : LocalizedContentType
  locale : Locale
  data : String
deriving DecidableEq, Repr

/-- The full sequence of out-of-transaction `createOrUpdate` calls the
upsert loop issues for a request: per entry, the title call when the
title is non-null, then the content call when the content is non-null. -/
def upsertCallsOf (contents : List UpdateLocalizedContentDto) : List UpsertCall :=
  match contents with
  | [] => []
  | lc :: rest =>
    (match lc.title with
     | some t => [⟨LocalizedContentType.PROBLEM_TITLE, lc.locale, t⟩]
     | none => []) ++
    (match lc.contentSections with
     | some c => [⟨LocalizedContentType.PROBLEM_CONTENT, lc.locale, jsonStringify c⟩]
     | none => []) ++
    upsertCallsOf rest

/-- Replaying a sequence of autocommitted upsert calls onto the
committed store: this is what survives a transaction abort. -/
def applyUpsertCalls (pid : Nat) (calls : List UpsertCall)
    (rows : List LocalizedContentRow) : List LocalizedContentRow :=
  match calls with
  | [] => rows
  | c :: rest => applyUpsertCalls pid rest (lcCreateOrUpdate rows pid c.type c.locale c.data)

/-- Outcome of a transaction body: the new store and next step number,
or an aborting error. -/
abbrev TxResult := Except Unit (DBState × Nat)

/-- A single fallible database call inside a transaction: step `n` fails
exactly when the fault oracle says so. -/
def txWrite (faults : Nat → Bool) (db : DBState) (n : Nat) (w : DBState → DBState) : TxResult :=
  if faults n then Except.error () else Except.ok (w db, n + 1)

/-- The sample step under fault injection: the `findOne` and the `save`
are separate database calls; a missing sample row throws. -/
def txSamples (faults : Nat → Bool) (problem : ProblemEntity)
    (samples : Option ProblemSampleData) (db : DBState) (n : Nat) : TxResult :=
  match samples with
  | none => Except.ok (db, n)
  | some s =>
    if faults n then Except.error ()
    else
      match db.problemSamples.find? (fun ps => ps.problemId == problem.id) with
      | none => Except.error ()
      | some ps => txWrite faults db (n + 1) (fun d => saveProblemSample d { ps with data := s })

/-- The deletion loop under fault injection: two delete calls per
removed locale. -/
def txDeleteLocales (faults : Nat → Bool) (pid : Nat) (locales : List Locale)
    (db : DBState) (n : Nat) : TxResult :=
  match locales with
  | [] => Except.ok (db, n)
  | l :: rest =>
    let w1 : DBState → DBState := fun d =>
      { d with localizedContents := lcDelete d.localizedContents pid .PROBLEM_TITLE (some l) }
    match txWrite faults db n w1 with
    | Except.error e => Except.error e
    | Except.ok (db1, n1) =>
      let w2 : DBState → DBState := fun d =>
        { d with localizedContents := lcDelete d.localizedContents pid .PROBLEM_CONTENT (some l) }
      match txWrite faults db1 n1 w2 with
      | Except.error e => Except.error e
      | Except.ok (db2, n2) => txDeleteLocales faults pid rest db2 n2

/-- The upsert loop under fault injection: one call per non-null field.
The source's `createOrUpdate` calls here carry no
`transactionalEntityManager`, so each performed call autocommits outside
the transaction: the loop updates the transaction's view of the store
and also records the performed calls (`acc`), which survive a later
abort. A failing call itself writes nothing and aborts the body with the
calls committed so far. -/
def txUpsertContents (faults : Nat → Bool) (pid : Nat)
    (contents : List UpdateLocalizedContentDto) (db : DBState) (n : Nat)
    (acc : List UpsertCall) : Except (List UpsertCall) (DBState × Nat × List UpsertCall) :=
  match contents with
  | [] => Except.ok (db, n, acc)
  | lc :: rest =>
    let step1 : Except (List UpsertCall) (DBState × Nat × List UpsertCall) :=
      match lc.title with
      | some t =>
        if faults n then Except.error acc
        else
          let d1 : DBState :=
            { db with localizedContents := lcCreateOrUpdate db.localizedContents pid .PROBLEM_TITLE lc.locale t }
          Except.ok (d1, n + 1, acc ++ [⟨LocalizedContentType.PROBLEM_TITLE, lc.locale, t⟩])
      | none => Except.ok (db, n, acc)
    match step1 with
    | Except.error a => Except.error a
    | Except.ok (db1, n1, acc1) =>
      let step2 : Except (List UpsertCall) (DBState × Nat × List UpsertCall) :=
        match lc.contentSections with
        | some c =>
          if faults n1 then Except.error acc1
          else
            let d2 : DBState :=
              { db1 with localizedContents := lcCreateOrUpdate db1.localizedContents pid .PROBLEM_CONTENT lc.locale (jsonStringify c) }
            Except.ok (d2, n1 + 1, acc1 ++ [⟨LocalizedContentType.PROBLEM_CONTENT, lc.locale, jsonStringify c⟩])
        | none => Except.ok (db1, n1, acc1)
      match step2 with
      | Except.error a => Except.error a
      | Except.ok (db2, n2, acc2) => txUpsertContents faults pid rest db2 n2 acc2

/-- `setProblemTags` under fault injection: the delete statement, then
the bulk insert unless the tag list is empty. -/
def txSetProblemTags (faults : Nat → Bool) (problem : ProblemEntity)
    (problemTags : List ProblemTagEntity) (db : DBState) (n : Nat) : TxResult :=
  let wd : DBState → DBState := fun d =>
    { d with problemTagMaps := d.problemTagMaps.filter (fun m => !(m.problemId == problem.id)) }
  match txWrite faults db n wd with
  | Except.error e => Except.error e
  | Except.ok (db1, n1) =>
    if problemTags.length = 0 then Except.ok (db1, n1)
    else
      txWrite faults db1 n1 (fun d =>
        { d with problemTagMaps := d.problemTagMaps ++ problemTags.map (fun t => ⟨problem.id, t.id⟩) })

/-- The transaction body of `updateProblemStatement` under fault
injection, mirroring the source's statement order. An aborting error
carries the upsert calls already autocommitted outside the transaction
at the moment of the throw. -/
def updateProblemStatementTx (faults : Nat → Bool) (problem : ProblemEntity)
    (request : UpdateProblemStatementRequestDto) (tags : List ProblemTagEntity)
    (db : DBState) (n : Nat) : Except (List UpsertCall) (DBState × Nat) :=
  match txSamples faults problem request.samples db n with
  | Except.error _ => Except.error []
  | Except.ok (db1, n1) =>
    match txDeleteLocales faults problem.id
        (problem.locales.filter
          (fun l => !((request.localizedContents.map (fun lc => lc.locale)).contains l)))
        db1 n1 with
    | Except.error _ => Except.error []
    | Except.ok (db2, n2) =>
      match txUpsertContents faults problem.id request.localizedContents db2 n2 [] with
      | Except.error committed => Except.error committed
      | Except.ok (db3, n3, committed) =>
        match txSetProblemTags faults
            { problem with locales := request.localizedContents.map (fun lc => lc.locale) }
            tags db3 n3 with
        | Except.error _ => Except.error committed
        | Except.ok (db4, n4) =>
          match txWrite faults db4 n4 (fun d =>
              saveProblem d
                { problem with locales := request.localizedContents.map (fun lc => lc.locale) }) with
          | Except.error _ => Except.error committed
          | Except.ok (db5, n5) => Except.ok (db5, n5)

/-- `updateProblemStatement`: the body runs inside one
`connection.transaction`; on a throw the transaction rolls its own
writes back and rethrows — but the title/content upserts, which ran on
the default connection outside the transaction, are already committed
and survive the rollback. On success the method returns `true`. -/
def updateProblemStatement (faults : Nat → Bool) (problem : ProblemEntity)
    (request : UpdateProblemStatementRequestDto) (tags : List ProblemTagEntity)
    (db : DBState) : Option Bool × DBState :=
  match updateProblemStatementTx faults problem request tags db 0 with
  | Except.error committed =>
    (none, { db with localizedContents :=
        applyUpsertCalls problem.id committed db.localizedContents })
  | Except.ok (db2, _) => (some true, db2)

/-- `ProblemPermissionType` enum of the source. -/
inductive ProblemPermissionType where
  | VIEW
  | MODIFY
  | MANAGE_PERMISSION
  | MANAGE_PUBLICNESS
  | DELETE
deriving DecidableEq, Repr

/-- `ProblemPermissionLevel` enum of the source: READ = 1, WRITE = 2. -/
inductive ProblemPermissionLevel where
  | READ
  | WRITE
deriving DecidableEq, Repr

/-- The numeric value of an ACL level as declared in the source enum. -/
def ProblemPermissionLevel.value : ProblemPermissionLevel → Nat
  | ProblemPermissionLevel.READ => 1
  | ProblemPermissionLevel.WRITE => 2

/-- `UserPrivilegeType` (`user-privilege.service.ts`, external to the
source); only `MANAGE_PROBLEM` is consulted by the problem service. -/
inductive UserPrivilegeType where
  | MANAGE_PROBLEM
deriving DecidableEq, Repr

/-- Modelled from the spec: the environment of external collaborators
consulted by the permission switch — the privilege service, group
membership, user and group ACL grants on problems, and the boolean
policy flags of the application configuration. -/
structure PermissionEnv where
  userHasPrivilege : Nat → UserPrivilegeType → Bool
  userGroups : Nat → List Nat
  userAcl : Nat → Nat → Option ProblemPermissionLevel
  groupAcl : Nat → Nat → Option ProblemPermissionLevel
  allowOwnerManageProblemPermission : Bool
  allowOwnerDeleteProblem : Bool
  allowEveryoneCreateProblem : Bool

/-- Whether a stored grant (if any) meets a required level; WRITE
satisfies a READ requirement. -/
def grantSatisfies (grant : Option ProblemPermissionLevel)
    (required : ProblemPermissionLevel) : Bool :=
  match grant with
  | none => false
  | some l => required.value ≤ l.value

/-- Modelled from the spec: `permissionService.userOrItsGroupsHavePermission`
(external to the source) — the union of the user's direct grant on the
object and the grants of every group the user belongs to, each compared
against the required level. -/
def userOrItsGroupsHavePermission (env : PermissionEnv) (userId objectId : Nat)
    (level : ProblemPermissionLevel) : Bool :=
  grantSatisfies (env.userAcl userId objectId) level ||
    (env.userGroups userId).any (fun g => grantSatisfies (env.groupAcl g objectId) level)

/-- `userHasPermission`: the permission switch of the source, with the
anonymous actor modelled as `none`. -/
def userHasPermission (env : PermissionEnv) (user : Option UserEntity)
    (problem : ProblemEntity) (t : ProblemPermissionType) : Bool :=
  match t with
  | ProblemPermissionType.VIEW =>
    if problem.isPublic then true
    else match user with
      | none => false
      | some u =>
        if u.id == problem.ownerId then true
        else if u.isAdmin then true
        else if env.userHasPrivilege u.id UserPrivilegeType.MANAGE_PROBLEM then true
        else userOrItsGroupsHavePermission env u.id problem.id ProblemPermissionLevel.READ
  | ProblemPermissionType.MODIFY =>
    match user with
    | none => false
    | some u =>
      if u.id == problem.ownerId then true
      else if u.isAdmin then true
      else if env.userHasPrivilege u.id UserPrivilegeType.MANAGE_PROBLEM then true
      else userOrItsGroupsHavePermission env u.id problem.id ProblemPermissionLevel.WRITE
  | ProblemPermissionType.MANAGE_PERMISSION =>
    match user with
    | none => false
    | some u =>
      if u.id == problem.ownerId && env.allowOwnerManageProblemPermission then true
      else if u.isAdmin then true
      else if env.userHasPrivilege u.id UserPrivilegeType.MANAGE_PROBLEM then true
      else false
  | ProblemPermissionType.MANAGE_PUBLICNESS =>
    match user with
    | none => false
    | some u =>
      if u.isAdmin then true
      else if env.userHasPrivilege u.id UserPrivilegeType.MANAGE_PROBLEM then true
      else false
  | ProblemPermissionType.DELETE =>
    match user with
    | none => false
    | some u =>
      if u.id == problem.ownerId && env.allowOwnerDeleteProblem then true
      else if u.isAdmin then true
      else if env.userHasPrivilege u.id UserPrivilegeType.MANAGE_PROBLEM then true
      else false

/-- The VIEW rule exactly as the spec's permission table words it: the
first-true-wins precedence list "public; no actor; owner; admin; global
privilege; READ-or-higher ACL entry directly or via a group". Written
from the spec, to be compared with the source's `userHasPermission`. -/
def viewRuleSpec (env : PermissionEnv) (user : Option UserEntity)
    (problem : ProblemEntity) : Bool :=
  if problem.isPublic then true
  else match user with
    | none => false
    | some u =>
      if u.id == problem.ownerId then true
      else if u.isAdmin then true
      else if env.userHasPrivilege u.id UserPrivilegeType.MANAGE_PROBLEM then true
      else if grantSatisfies (env.userAcl u.id problem.id) ProblemPermissionLevel.READ then true
      else if (env.userGroups u.id).any
          (fun g => grantSatisfies (env.groupAcl g problem.id) ProblemPermissionLevel.READ) then true
      else false

/-- Storage-level errors thrown by `save`; the code never inspects them,
so only their identity matters. -/
inductive StorageError where
  | uniqueViolation
  | other (message : String)
deriving DecidableEq, Repr

/-- `setProblemDisplayId`. A falsy (zero) display id is normalized to
null. If unchanged, returns true with no write. Otherwise the save may
throw (`saveOutcome` injects the storage outcome); in the catch block the
code counts problems whose `displayId` equals the (normalized) target
and returns false when the count is positive, rethrowing otherwise. -/
def setProblemDisplayId (saveOutcome : Option StorageError) (problem : ProblemEntity)
    (displayId : Int) (db : DBState) : Except StorageError (Bool × DBState) :=
  let newDisplayId : Option Int := if displayId = 0 then none else some displayId
  if problem.displayId = newDisplayId then Except.ok (true, db)
  else
    let problem2 := { problem with displayId := newDisplayId }
    match saveOutcome with
    | none => Except.ok (true, saveProblem db problem2)
    | some e =>
      if 0 < (db.problems.filter (fun p => p.displayId == newDisplayId)).length then
        Except.ok (false, db)
      else
        Except.error e

/-- Modelled from the spec: File Reference Store `tryReference`
(`fileService.tryReferenceFile`, external to the source): if a blob with
this hash exists, increment its reference count and return its handle;
otherwise report `none` and change nothing. -/
def tryReferenceFile (files : List FileRow) (sha256 : String) :
    Option String × List FileRow :=
  match files.find? (fun f => f.sha256 == sha256) with
  | none => (none, files)
  | some f =>
    (some f.uuid,
     files.map (fun g => if g.uuid == f.uuid then { g with referenceCount := g.referenceCount + 1 } else g))

/-- Modelled from the spec: File Reference Store `dereference`: decrement
the handle's reference count, deleting the blob at zero. -/
def dereferenceFile (files : List FileRow) (uuid : String) : List FileRow :=
  (files.map (fun f => if f.uuid == uuid then { f with referenceCount := f.referenceCount - 1 } else f)).filter
    (fun f => decide (0 < f.referenceCount))

/-- TypeORM `save` of a problem file entity (primary key
(problemId, type, filename)). -/
def saveProblemFile (db : DBState) (pf : ProblemFileEntity) : DBState :=
  if db.problemFiles.any (fun q =>
      decide (q.problemId = pf.problemId ∧ q.type = pf.type ∧ q.filename = pf.filename)) then
    { db with problemFiles := db.problemFiles.map (fun q =>
        if decide (q.problemId = pf.problemId ∧ q.type = pf.type ∧ q.filename = pf.filename) then pf else q) }
  else
    { db with problemFiles := db.problemFiles ++ [pf] }

/-- `addProblemFile` (successful transaction): acquire a reference for
the hash; on `none` return false at once; otherwise, if a row already
occupies (problemId, type, filename), dereference its old content and
rewrite its handle, else create a new row. -/
def addProblemFile (problem : ProblemEntity) (sha256 : String) (ftype : ProblemFileType)
    (filename : String) (db : DBState) : Bool × DBState :=
  match tryReferenceFile db.files sha256 with
  | (none, files1) => (false, { db with files := files1 })
  | (some uuid, files1) =>
    let db1 := { db with files := files1 }
    match db1.problemFiles.find? (fun f =>
        decide (f.problemId = problem.id ∧ f.type = ftype ∧ f.filename = filename)) with
    | some problemFile =>
      let db2 := { db1 with files := dereferenceFile db1.files problemFile.uuid }
      (true, saveProblemFile db2 { problemFile with uuid := uuid })
    | none =>
      (true, saveProblemFile db1 ⟨problem.id, ftype, filename, uuid⟩)

/-- `renameProblemFile`: look up the row at (problemId, type, old
filename); if absent return false; otherwise update that row's filename
in place (the source uses `update` with the found entity as criteria,
since filename is part of the primary key) and return true. -/
def renameProblemFile (problem : ProblemEntity) (ftype : ProblemFileType)
    (filename newFilename : String) (db : DBState) : Bool × DBState :=
  match db.problemFiles.find? (fun f =>
      decide (f.problemId = problem.id ∧ f.type = ftype ∧ f.filename = filename)) with
  | none => (false, db)
  | some problemFile =>
    (true, { db with problemFiles := db.problemFiles.map (fun f =>
        if f == problemFile then { f with filename := newFilename } else f) })

/-- `Object.fromEntries` over (id, record) pairs: later entries replace
earlier ones; lookup of an unlisted key is `undefined` (`none`). -/
def fromEntriesById (records : List ProblemEntity) : Nat → Option ProblemEntity :=
  records.foldl (fun m r => fun k => if k = r.id then some r else m k) (fun _ => none)

/-- TypeORM `findByIds`: the rows whose id occurs in the id list. -/
def problemFindByIds (problems : List ProblemEntity) (ids : List Nat) : List ProblemEntity :=
  problems.filter (fun p => decide (p.id ∈ ids))

/-- `findProblemsByExistingIds`: empty input short-circuits to `[]`;
otherwise the ids are deduplicated, the matching rows fetched, a map
from id to record built, and each input id mapped through it (an
unmatched id yields `undefined`, modelled as `none`). -/
def findProblemsByExistingIds (problems : List ProblemEntity) (problemIds : List Nat) :
    List (Option ProblemEntity) :=
  if problemIds.length = 0 then []
  else
    let uniqueIds := problemIds.dedup
    let records := problemFindByIds problems uniqueIds
    let map := fromEntriesById records
    problemIds.map (fun problemId => map problemId)

/-- `Object.fromEntries` over (id, tag) pairs. -/
def fromEntriesByTagId (records : List ProblemTagEntity) : Nat → Option ProblemTagEntity :=
  records.foldl (fun m r => fun k => if k = r.id then some r else m k) (fun _ => none)

/-- TypeORM `findByIds` on the tag repository. -/
def tagFindByIds (problemTags : List ProblemTagEntity) (ids : List Nat) : List ProblemTagEntity :=
  problemTags.filter (fun t => decide (t.id ∈ ids))

/-- `findProblemTagsByExistingIds`: same shape as
`findProblemsByExistingIds`, over the tag repository. -/
def findProblemTagsByExistingIds (problemTags : List ProblemTagEntity)
    (problemTagIds : List Nat) : List (Option ProblemTagEntity) :=
  if problemTagIds.length = 0 then []
  else
    let uniqueIds := problemTagIds.dedup
    let records := tagFindByIds problemTags uniqueIds
    let map := fromEntriesByTagId records
    problemTagIds.map (fun problemId => map problemId)

/-- The spec's locale invariant: the problem's `locales` attribute holds
exactly the locales for which both a title row and a content row exist in
the localized content store. -/
def localesConsistent (rows : List LocalizedContentRow) (p : ProblemEntity) : Prop :=
  ∀ l : Locale, l ∈ p.locales ↔
    (lcHasRow rows p.id LocalizedContentType.PROBLEM_TITLE l = true ∧
     lcHasRow rows p.id LocalizedContentType.PROBLEM_CONTENT l = true)

/-- The empty store. -/
def emptyDB : DBState := ⟨[], [], [], [], [], [], [], []⟩

/-- A problem with no locales and no localized rows, used as a concrete
starting state. -/
def exProblem : ProblemEntity := ⟨1, none, "traditional", false, 7, [], 0, 0⟩

/-- A store holding only `exProblem`. -/
def exDB : DBState := { emptyDB with problems := [exProblem] }

/-- An update request that introduces the locale `en` while leaving both
of its fields null. -/
def exNullFieldRequest : UpdateProblemStatementRequestDto :=
  ⟨[⟨"en", none, none⟩], none⟩

/-- The in-memory problem entity after `exNullFieldRequest` is applied. -/
def exProblemAfter : ProblemEntity := { exProblem with locales := ["en"] }

/-- The committed store after `exNullFieldRequest` is applied to `exDB`:
the problem row carries locale `en` but no localized row exists. -/
def exDBAfter : DBState := { emptyDB with problems := [exProblemAfter] }

/-- A second problem already holding display id 5. -/
def exHolder : ProblemEntity := ⟨2, some 5, "traditional", false, 7, [], 0, 0⟩

/-- A store in which display id 5 is taken by `exHolder`. -/
def exDBHolder : DBState := { emptyDB with problems := [exProblem, exHolder] }

/-- A problem file row and a store containing it, used as concrete
inputs. -/
def exFileRow : ProblemFileEntity := ⟨1, "TestData", "a.txt", "u1"⟩

/-- A store holding `exProblem`, the file row `exFileRow` and its
referenced blob. -/
def exDBFile : DBState :=
  { emptyDB with
    problems := [exProblem]
    problemFiles := [exFileRow]
    files := [⟨"u1", "cafe", 3, 1⟩] }

/-- An update request supplying locale `en` with both fields set. -/
def exFullRequest : UpdateProblemStatementRequestDto :=
  ⟨[⟨"en", some "T", some "C"⟩], none⟩

/-- The committed store after `exFullRequest` is applied to `exDB`. -/
def exDBAfterFull : DBState :=
  { emptyDB with
    problems := [exProblemAfter]
    localizedContents := [⟨1, LocalizedContentType.PROBLEM_TITLE, "en", "T"⟩,
      ⟨1, LocalizedContentType.PROBLEM_CONTENT, "en", "C"⟩] }

/-- A creation statement with one locale, used as a concrete input. -/
def exStatement : ProblemStatementDto := ⟨[⟨"en", "T", "C"⟩], "S"⟩

/-- The store left behind when `exFullRequest` is aborted after its
upserts: the transaction rolled back, but the autocommitted title and
content rows remain. -/
def exDBLeaked : DBState :=
  { emptyDB with
    problems := [exProblem]
    localizedContents := [⟨1, LocalizedContentType.PROBLEM_TITLE, "en", "T"⟩,
      ⟨1, LocalizedContentType.PROBLEM_CONTENT, "en", "C"⟩] }

/-- A problem holding statements in `en` and `zh`. -/
def exProblemEnZh : ProblemEntity := ⟨1, none, "traditional", false, 7, ["en", "zh"], 0, 0⟩

/-- A store with title and content rows for both locales of
`exProblemEnZh`. -/
def exDBEnZh : DBState :=
  { emptyDB with
    problems := [exProblemEnZh]
    localizedContents := [⟨1, LocalizedContentType.PROBLEM_TITLE, "en", "tEn"⟩,
      ⟨1, LocalizedContentType.PROBLEM_CONTENT, "en", "cEn"⟩,
      ⟨1, LocalizedContentType.PROBLEM_TITLE, "zh", "tZh"⟩,
      ⟨1, LocalizedContentType.PROBLEM_CONTENT, "zh", "cZh"⟩] }

/-- A partial update: only `en`, with a new title and a null content. -/
def exPartialRequest : UpdateProblemStatementRequestDto :=
  ⟨[⟨"en", some "tEn2", none⟩], none⟩

/-- The saved entity after `exPartialRequest`. -/
def exProblemEn : ProblemEntity := { exProblemEnZh with locales := ["en"] }

/-- The committed store after `exPartialRequest` is applied to
`exDBEnZh`: `zh` rows deleted, the `en` title rewritten, the `en`
content untouched. -/
def exDBEnZhAfter : DBState :=
  { emptyDB with
    problems := [exProblemEn]
    localizedContents := [⟨1, LocalizedContentType.PROBLEM_TITLE, "en", "tEn2"⟩,
      ⟨1, LocalizedContentType.PROBLEM_CONTENT, "en", "cEn"⟩] }

/-- A boolean disjunction written as the spec writes its precedence
rules: first true wins. -/
theorem bool_or_as_ite (a b : Bool) :
    (a || b) = (if a then true else if b then true else false) := by
  cases a <;> cases b <;> rfl

/-- C5: for every actor (possibly anonymous) and problem, the VIEW
decision of `userHasPermission` equals the spec's first-true-wins
precedence list: public, no actor, owner, admin, global manage-problem
privilege, READ-or-higher ACL entry held directly or via a group. -/
theorem userHasPermission_view_matches_spec (env : PermissionEnv)
    (user : Option UserEntity) (problem : ProblemEntity) :
    userHasPermission env user problem ProblemPermissionType.VIEW =
      viewRuleSpec env user problem := by
  cases user with
  | none => rfl
  | some u =>
    simp only [userHasPermission, viewRuleSpec, userOrItsGroupsHavePermission,
      ← bool_or_as_ite]

/-- C6: MANAGE_PUBLICNESS is granted exactly to a present actor who is a
system admin or holds the global manage-problem privilege; the decision
does not consult the problem at all, so ownership is never sufficient,
and an anonymous actor is always denied. -/
theorem userHasPermission_manage_publicness (env : PermissionEnv)
    (user : Option UserEntity) (problem : ProblemEntity) :
    userHasPermission env user problem ProblemPermissionType.MANAGE_PUBLICNESS =
      user.elim false
        (fun u => u.isAdmin || env.userHasPrivilege u.id UserPrivilegeType.MANAGE_PROBLEM) := by
  cases user with
  | none => rfl
  | some u =>
    simp only [userHasPermission, Option.elim]
    by_cases ha : u.isAdmin <;> simp [ha]

/-- C9: `setProblemTags` leaves exactly the other problems' association
rows plus one new row per given tag, and issues the delete statement
followed by a bulk insert — except that an empty tag list issues the
delete alone, with no insert statement at all. -/
theorem setProblemTags_spec (problem : ProblemEntity)
    (problemTags : List ProblemTagEntity) (tagMaps : List ProblemTagMapEntity) :
    (setProblemTags problem problemTags tagMaps).1 =
      tagMaps.filter (fun m => !(m.problemId == problem.id)) ++
        problemTags.map (fun t => ⟨problem.id, t.id⟩) ∧
    (setProblemTags problem problemTags tagMaps).2 =
      (if problemTags.isEmpty then [TagSqlAction.deleteMaps problem.id]
       else [TagSqlAction.deleteMaps problem.id,
             TagSqlAction.insertMaps (problemTags.map (fun t => ⟨problem.id, t.id⟩))]) := by
  unfold setProblemTags
  cases problemTags <;> simp

/-- C7: when the content hash is unknown to the file reference store,
`addProblemFile` returns false and the store — in particular every
ProblemFile row — is left exactly as it was. -/
theorem addProblemFile_unknown_hash (problem : ProblemEntity) (sha256 : String)
    (ftype : ProblemFileType) (filename : String) (db : DBState)
    (h : db.files.find? (fun f => f.sha256 == sha256) = none) :
    addProblemFile problem sha256 ftype filename db = (false, db) := by
  unfold addProblemFile tryReferenceFile
  rw [h]

/-- Witness for C7 at a concrete store with no blob for the hash. -/
theorem addProblemFile_unknown_hash_witness :
    emptyDB.files.find? (fun f => f.sha256 == "deadbeef") = none ∧
    addProblemFile exProblem "deadbeef" "TestData" "a.txt" emptyDB = (false, emptyDB) :=
  ⟨by decide, addProblemFile_unknown_hash exProblem "deadbeef" "TestData" "a.txt" emptyDB (by decide)⟩

/-- C8: `renameProblemFile` returns false and changes nothing when no
row sits at (problemId, type, old filename); otherwise it returns true
and rewrites only that row's filename in place — its uuid is preserved
and the file reference store (hence every reference count) is untouched. -/
theorem renameProblemFile_spec (problem : ProblemEntity) (ftype : ProblemFileType)
    (filename newFilename : String) (db : DBState) :
    (db.problemFiles.find? (fun f =>
        decide (f.problemId = problem.id ∧ f.type = ftype ∧ f.filename = filename)) = none →
      renameProblemFile problem ftype filename newFilename db = (false, db)) ∧
    (∀ pf, db.problemFiles.find? (fun f =>
        decide (f.problemId = problem.id ∧ f.type = ftype ∧ f.filename = filename)) = some pf →
      (renameProblemFile problem ftype filename newFilename db).1 = true ∧
      ((renameProblemFile problem ftype filename newFilename db).2).problemFiles =
        db.problemFiles.map (fun f => if f == pf then { f with filename := newFilename } else f) ∧
      ({ pf with filename := newFilename }).uuid = pf.uuid ∧
      ((renameProblemFile problem ftype filename newFilename db).2).files = db.files) := by
  constructor
  · intro h
    unfold renameProblemFile
    rw [h]
  · intro pf h
    unfold renameProblemFile
    rw [h]
    exact ⟨rfl, rfl, rfl, rfl⟩

/-- Witness for C8: renaming `a.txt` to `b.txt` in a concrete store. -/
theorem renameProblemFile_spec_witness :
    (renameProblemFile exProblem "TestData" "a.txt" "b.txt" exDBFile).1 = true ∧
    ((renameProblemFile exProblem "TestData" "a.txt" "b.txt" exDBFile).2).problemFiles =
      exDBFile.problemFiles.map (fun f => if f == exFileRow then { f with filename := "b.txt" } else f) ∧
    ({ exFileRow with filename := "b.txt" }).uuid = exFileRow.uuid ∧
    ((renameProblemFile exProblem "TestData" "a.txt" "b.txt" exDBFile).2).files = exDBFile.files :=
  (renameProblemFile_spec exProblem "TestData" "a.txt" "b.txt" exDBFile).2 exFileRow (by decide)

/-- C4 counterexample: persisting fails with an error that is not a
uniqueness violation while another problem happens to hold the target
display id; the claim demands that such a non-conflict error propagate,
but the code returns false, swallowing it. -/
theorem setProblemDisplayId_swallows_cx :
    setProblemDisplayId (some (StorageError.other "connection reset")) exProblem 5 exDBHolder =
      Except.ok (false, exDBHolder) := by rfl

/-- C4, amended: when the save fails, the code tells conflict apart by a
fresh count query rather than by inspecting the error: any failure while
some problem row holds the (normalized) target display id yields false,
and the error — whatever it is — propagates unchanged exactly when no
problem holds that display id. -/
theorem setProblemDisplayId_failure_requery (e : StorageError) (problem : ProblemEntity)
    (displayId : Int) (db : DBState)
    (h : problem.displayId ≠ (if displayId = 0 then none else some displayId)) :
    ((∃ p ∈ db.problems, p.displayId = (if displayId = 0 then none else some displayId)) →
      setProblemDisplayId (some e) problem displayId db = Except.ok (false, db)) ∧
    ((∀ p ∈ db.problems, p.displayId ≠ (if displayId = 0 then none else some displayId)) →
      setProblemDisplayId (some e) problem displayId db = Except.error e) := by
  have hred : setProblemDisplayId (some e) problem displayId db =
      (if 0 < (db.problems.filter
          (fun p => p.displayId == (if displayId = 0 then none else some displayId))).length
       then Except.ok (false, db) else Except.error e) := by
    unfold setProblemDisplayId
    rw [if_neg h]
  constructor
  · rintro ⟨p, hp, hd⟩
    have hmem : p ∈ db.problems.filter
        (fun q => q.displayId == (if displayId = 0 then none else some displayId)) :=
      List.mem_filter.mpr ⟨hp, by simp [hd]⟩
    rw [hred, if_pos (List.length_pos.mpr (List.ne_nil_of_mem hmem))]
  · intro hall
    have hnil : db.problems.filter
        (fun q => q.displayId == (if displayId = 0 then none else some displayId)) = [] :=
      List.filter_eq_nil_iff.mpr (fun p hp => by simp [hall p hp])
    rw [hred, hnil]
    simp

/-- Witness for C4's amended theorem: a failing save while display id 5
is already taken yields false. -/
theorem setProblemDisplayId_failure_requery_witness :
    setProblemDisplayId (some StorageError.uniqueViolation) exProblem 5 exDBHolder =
      Except.ok (false, exDBHolder) :=
  (setProblemDisplayId_failure_requery StorageError.uniqueViolation exProblem 5 exDBHolder
    (by decide)).1 ⟨exHolder, by decide, by decide⟩

/-- Evaluating the `Object.fromEntries` fold: the last record whose id
is the key wins; with no matching record the initial map decides. -/
theorem fromEntries_foldl_eq {α : Type} (getId : α → Nat) (records : List α)
    (m : Nat → Option α) (k : Nat) :
    records.foldl (fun m2 r => fun k2 => if k2 = getId r then some r else m2 k2) m k =
      (records.reverse.find? (fun r => getId r == k)).elim (m k) some := by
  induction records generalizing m with
  | nil => rfl
  | cons r rest ih =>
    rw [List.foldl_cons, ih, List.reverse_cons, List.find?_append]
    cases h : rest.reverse.find? (fun r2 => getId r2 == k) with
    | some x => rfl
    | none =>
      by_cases hk : getId r = k
      · rw [List.find?_cons_of_pos _ (by simp [hk])]
        simp [hk]
      · rw [List.find?_cons_of_neg _ (by simp [hk])]
        simp [Option.elim]
        intro he
        exact absurd he.symm hk

/-- With pairwise distinct ids, searching the reverse finds the same
record as searching the list itself. -/
theorem find?_reverse_of_nodup {α : Type} (getId : α → Nat) (l : List α)
    (hnd : (l.map getId).Nodup) (k : Nat) :
    l.reverse.find? (fun r => getId r == k) = l.find? (fun r => getId r == k) := by
  induction l with
  | nil => rfl
  | cons r rest ih =>
    rw [List.map_cons, List.nodup_cons] at hnd
    obtain ⟨hr, hrest⟩ := hnd
    rw [List.reverse_cons, List.find?_append]
    by_cases hk : getId r = k
    · have hnone : rest.find? (fun r2 => getId r2 == k) = none := by
        rw [List.find?_eq_none]
        intro x hx
        simp only [beq_iff_eq]
        intro hxk
        exact hr (by rw [hk, ← hxk]; exact List.mem_map_of_mem getId hx)
      have hnone2 : rest.reverse.find? (fun r2 => getId r2 == k) = none := by
        rw [List.find?_eq_none] at hnone ⊢
        intro x hx
        exact hnone x (List.mem_reverse.mp hx)
      have hone : List.find? (fun r2 => getId r2 == k) [r] = some r :=
        List.find?_cons_of_pos _ (by simp [hk])
      rw [hnone2, hone, List.find?_cons_of_pos _ (by simp [hk])]
      rfl
    · have hpr : ¬ ((fun r2 => getId r2 == k) r = true) := by simp [hk]
      have hone : List.find? (fun r2 => getId r2 == k) [r] = none :=
        (@List.find?_cons_of_neg _ (fun r2 => getId r2 == k) r [] hpr).trans rfl
      rw [hone, @List.find?_cons_of_neg _ (fun r2 => getId r2 == k) r rest hpr, ← ih hrest]
      cases rest.reverse.find? (fun r2 => getId r2 == k) <;> rfl

/-- Restricting the table to rows whose id occurs in the id list does
not change the result of a search for a listed id. -/
theorem find?_filter_mem {α : Type} (getId : α → Nat) (l : List α) (ids : List Nat)
    (k : Nat) (hk : k ∈ ids) :
    (l.filter (fun r => decide (getId r ∈ ids))).find? (fun r => getId r == k) =
      l.find? (fun r => getId r == k) := by
  induction l with
  | nil => rfl
  | cons r rest ih =>
    by_cases hmem : getId r ∈ ids
    · rw [List.filter_cons_of_pos (by simp [hmem])]
      by_cases hk2 : getId r = k
      · rw [List.find?_cons_of_pos _ (by simp [hk2]), List.find?_cons_of_pos _ (by simp [hk2])]
      · rw [List.find?_cons_of_neg _ (by simp [hk2]), List.find?_cons_of_neg _ (by simp [hk2]), ih]
    · rw [List.filter_cons_of_neg (by simp [hmem])]
      have hk2 : getId r ≠ k := fun he => hmem (he ▸ hk)
      rw [List.find?_cons_of_neg _ (by simp [hk2]), ih]

/-- Looking a listed id up in the map built by
`findProblemsByExistingIds` returns the unique matching problem row. -/
theorem fromEntriesById_lookup (problems : List ProblemEntity) (ids : List Nat)
    (h : (problems.map (fun p => p.id)).Nodup) (k : Nat) (hk : k ∈ ids) :
    fromEntriesById (problemFindByIds problems ids) k =
      problems.find? (fun p => p.id == k) := by
  have hA : fromEntriesById (problemFindByIds problems ids) k =
      ((problemFindByIds problems ids).reverse.find? (fun r => r.id == k)).elim none some :=
    fromEntries_foldl_eq (fun p : ProblemEntity => p.id) (problemFindByIds problems ids)
      (fun _ => none) k
  have hnd : ((problemFindByIds problems ids).map (fun p => p.id)).Nodup :=
    List.Nodup.sublist (List.Sublist.map _ (List.filter_sublist problems)) h
  have hB := find?_reverse_of_nodup (fun p : ProblemEntity => p.id)
    (problemFindByIds problems ids) hnd k
  have hC := find?_filter_mem (fun p : ProblemEntity => p.id) problems ids k hk
  rw [hA, hB]
  show ((problems.filter (fun r => decide (r.id ∈ ids))).find? (fun r => r.id == k)).elim none some =
    problems.find? (fun p => p.id == k)
  rw [hC]
  cases problems.find? (fun p => p.id == k) <;> rfl

/-- Tag-repository analogue of `fromEntriesById_lookup`. -/
theorem fromEntriesByTagId_lookup (problemTags : List ProblemTagEntity) (ids : List Nat)
    (h : (problemTags.map (fun t => t.id)).Nodup) (k : Nat) (hk : k ∈ ids) :
    fromEntriesByTagId (tagFindByIds problemTags ids) k =
      problemTags.find? (fun t => t.id == k) := by
  have hA : fromEntriesByTagId (tagFindByIds problemTags ids) k =
      ((tagFindByIds problemTags ids).reverse.find? (fun r => r.id == k)).elim none some :=
    fromEntries_foldl_eq (fun t : ProblemTagEntity => t.id) (tagFindByIds problemTags ids)
      (fun _ => none) k
  have hnd : ((tagFindByIds problemTags ids).map (fun t => t.id)).Nodup :=
    List.Nodup.sublist (List.Sublist.map _ (List.filter_sublist problemTags)) h
  have hB := find?_reverse_of_nodup (fun t : ProblemTagEntity => t.id)
    (tagFindByIds problemTags ids) hnd k
  have hC := find?_filter_mem (fun t : ProblemTagEntity => t.id) problemTags ids k hk
  rw [hA, hB]
  show ((problemTags.filter (fun r => decide (r.id ∈ ids))).find? (fun r => r.id == k)).elim none some =
    problemTags.find? (fun t => t.id == k)
  rw [hC]
  cases problemTags.find? (fun t => t.id == k) <;> rfl

/-- C10: over repositories with pairwise distinct ids (their primary
key), `findProblemsByExistingIds` and `findProblemTagsByExistingIds`
return exactly the input-id list mapped through lookup: same length as
the input, the i-th element the record whose id is the i-th input id,
duplicates resolved to the same record, `[]` for an empty input, and
`undefined` (`none`) at the position of an unmatched id. -/
theorem findByExistingIds_spec (problems : List ProblemEntity) (problemIds : List Nat)
    (problemTags : List ProblemTagEntity) (problemTagIds : List Nat)
    (h1 : (problems.map (fun p => p.id)).Nodup)
    (h2 : (problemTags.map (fun t => t.id)).Nodup) :
    findProblemsByExistingIds problems problemIds =
      problemIds.map (fun k => problems.find? (fun p => p.id == k)) ∧
    findProblemTagsByExistingIds problemTags problemTagIds =
      problemTagIds.map (fun k => problemTags.find? (fun t => t.id == k)) := by
  constructor
  · unfold findProblemsByExistingIds
    by_cases hlen : problemIds.length = 0
    · rw [if_pos hlen, List.length_eq_zero.mp hlen]
      rfl
    · rw [if_neg hlen]
      exact List.map_congr_left (fun k hk =>
        fromEntriesById_lookup problems problemIds.dedup h1 k (List.mem_dedup.mpr hk))
  · unfold findProblemTagsByExistingIds
    by_cases hlen : problemTagIds.length = 0
    · rw [if_pos hlen, List.length_eq_zero.mp hlen]
      rfl
    · rw [if_neg hlen]
      exact List.map_congr_left (fun k hk =>
        fromEntriesByTagId_lookup problemTags problemTagIds.dedup h2 k (List.mem_dedup.mpr hk))

/-- Witness for C10 on a concrete repository and an id list with a
duplicate and an unmatched id. -/
theorem findByExistingIds_spec_witness :
    findProblemsByExistingIds [exProblem, exHolder] [2, 9, 2] =
      [some exHolder, none, some exHolder] ∧
    findProblemTagsByExistingIds [⟨3, "red", ["en"]⟩] [3, 4] =
      [some ⟨3, "red", ["en"]⟩, none] := by
  have h := findByExistingIds_spec [exProblem, exHolder] [2, 9, 2]
    [⟨3, "red", ["en"]⟩] [3, 4] (by decide) (by decide)
  exact ⟨h.1.trans (by decide), h.2.trans (by decide)⟩

/-- A successful sample phase computes exactly the pure sample step. -/
theorem txSamples_ok {faults : Nat → Bool} {problem : ProblemEntity}
    {s : Option ProblemSampleData} {db db2 : DBState} {n n2 : Nat}
    (h : txSamples faults problem s db n = Except.ok (db2, n2)) :
    applySamples problem s db = some db2 := by
  cases s with
  | none =>
    simp [txSamples] at h
    simp [applySamples, h.1]
  | some v =>
    by_cases h1 : faults n = true
    · simp [txSamples, h1] at h
    · cases hfind : db.problemSamples.find? (fun ps => ps.problemId == problem.id) with
      | none => simp [txSamples, h1, hfind] at h
      | some ps =>
        by_cases h2 : faults (n + 1) = true
        · simp [txSamples, txWrite, h1, h2, hfind] at h
        · simp only [txSamples, txWrite, h1, h2, hfind, Bool.false_eq_true, if_neg,
            not_false_iff, Except.ok.injEq, Prod.mk.injEq] at h
          simp only [applySamples, hfind]
          rw [h.1]

/-- A successful deletion phase computes exactly the pure deletion
loop over the localized content table. -/
theorem txDeleteLocales_ok {faults : Nat → Bool} {pid : Nat} (locales : List Locale)
    {db db2 : DBState} {n n2 : Nat}
    (h : txDeleteLocales faults pid locales db n = Except.ok (db2, n2)) :
    db2 = { db with localizedContents := deleteLocalesData pid locales db.localizedContents } := by
  induction locales generalizing db n with
  | nil =>
    simp [txDeleteLocales] at h
    exact h.1.symm
  | cons l rest ih =>
    unfold txDeleteLocales at h
    by_cases h1 : faults n = true
    · simp [txWrite, h1] at h
    · by_cases h2 : faults (n + 1) = true
      · simp [txWrite, h1, h2] at h
      · simp only [txWrite, h1, h2, if_false, Bool.false_eq_true, if_neg, not_false_iff] at h
        exact ih h

/-- A successful upsert phase computes exactly the pure upsert loop on
the transaction's view, and the recorded autocommitted calls are the
request's full upsert-call sequence. -/
theorem txUpsertContents_ok {faults : Nat → Bool} {pid : Nat}
    (contents : List UpdateLocalizedContentDto) {db db2 : DBState} {n n2 : Nat}
    {acc acc2 : List UpsertCall}
    (h : txUpsertContents faults pid contents db n acc = Except.ok (db2, n2, acc2)) :
    db2 = { db with localizedContents := upsertContentsData pid contents db.localizedContents } ∧
    acc2 = acc ++ upsertCallsOf contents := by
  induction contents generalizing db n acc with
  | nil =>
    simp only [txUpsertContents, Except.ok.injEq, Prod.mk.injEq] at h
    refine ⟨h.1.symm, ?_⟩
    rw [← h.2.2]
    simp [upsertCallsOf]
  | cons lc rest ih =>
    cases hlt : lc.title with
    | some t =>
      by_cases h1 : faults n = true
      · simp [txUpsertContents, hlt, h1] at h
      · cases hlc : lc.contentSections with
        | some c =>
          by_cases h2 : faults (n + 1) = true
          · simp [txUpsertContents, hlt, hlc, h1, h2] at h
          · simp only [txUpsertContents, hlt, hlc, h1, h2, Bool.false_eq_true, if_neg,
              not_false_iff] at h
            obtain ⟨hdb, hacc⟩ := ih h
            refine ⟨?_, ?_⟩
            · simp only [upsertContentsData, hlt, hlc]
              exact hdb
            · rw [hacc]
              simp [upsertCallsOf, hlt, hlc]
        | none =>
          simp only [txUpsertContents, hlt, hlc, h1, Bool.false_eq_true, if_neg,
            not_false_iff] at h
          obtain ⟨hdb, hacc⟩ := ih h
          refine ⟨?_, ?_⟩
          · simp only [upsertContentsData, hlt, hlc]
            exact hdb
          · rw [hacc]
            simp [upsertCallsOf, hlt, hlc]
    | none =>
      cases hlc : lc.contentSections with
      | some c =>
        by_cases h2 : faults n = true
        · simp [txUpsertContents, hlt, hlc, h2] at h
        · simp only [txUpsertContents, hlt, hlc, h2, Bool.false_eq_true, if_neg,
            not_false_iff] at h
          obtain ⟨hdb, hacc⟩ := ih h
          refine ⟨?_, ?_⟩
          · simp only [upsertContentsData, hlt, hlc]
            exact hdb
          · rw [hacc]
            simp [upsertCallsOf, hlt, hlc]
      | none =>
        simp only [txUpsertContents, hlt, hlc] at h
        obtain ⟨hdb, hacc⟩ := ih h
        refine ⟨?_, ?_⟩
        · simp only [upsertContentsData, hlt, hlc]
          exact hdb
        · rw [hacc]
          simp [upsertCallsOf, hlt, hlc]

/-- An aborting upsert phase has autocommitted some prefix of the
request's upsert-call sequence; those calls survive the rollback. -/
theorem txUpsertContents_err {faults : Nat → Bool} {pid : Nat}
    (contents : List UpdateLocalizedContentDto) {db : DBState} {n : Nat}
    {acc acc2 : List UpsertCall}
    (h : txUpsertContents faults pid contents db n acc = Except.error acc2) :
    ∃ pre, acc2 = acc ++ pre ∧ pre <+: upsertCallsOf contents := by
  induction contents generalizing db n acc with
  | nil => simp [txUpsertContents] at h
  | cons lc rest ih =>
    cases hlt : lc.title with
    | some t =>
      by_cases h1 : faults n = true
      · simp only [txUpsertContents, hlt, h1, if_true, Except.error.injEq] at h
        exact ⟨[], by rw [← h]; simp, List.nil_prefix⟩
      · cases hlc : lc.contentSections with
        | some c =>
          by_cases h2 : faults (n + 1) = true
          · simp only [txUpsertContents, hlt, hlc, h1, h2, Bool.false_eq_true, if_neg,
              not_false_iff, if_true, Except.error.injEq] at h
            refine ⟨[⟨LocalizedContentType.PROBLEM_TITLE, lc.locale, t⟩], by rw [← h], ?_⟩
            exact ⟨[⟨LocalizedContentType.PROBLEM_CONTENT, lc.locale, jsonStringify c⟩] ++
              upsertCallsOf rest, by simp [upsertCallsOf, hlt, hlc]⟩
          · simp only [txUpsertContents, hlt, hlc, h1, h2, Bool.false_eq_true, if_neg,
              not_false_iff] at h
            obtain ⟨pre, hpre, tail, htail⟩ := ih h
            refine ⟨⟨LocalizedContentType.PROBLEM_TITLE, lc.locale, t⟩ ::
              ⟨LocalizedContentType.PROBLEM_CONTENT, lc.locale, jsonStringify c⟩ :: pre,
              by rw [hpre]; simp, ⟨tail, ?_⟩⟩
            simp only [upsertCallsOf, hlt, hlc, ← htail]
            simp
        | none =>
          simp only [txUpsertContents, hlt, hlc, h1, Bool.false_eq_true, if_neg,
            not_false_iff] at h
          obtain ⟨pre, hpre, tail, htail⟩ := ih h
          refine ⟨⟨LocalizedContentType.PROBLEM_TITLE, lc.locale, t⟩ :: pre,
            by rw [hpre]; simp, ⟨tail, ?_⟩⟩
          simp only [upsertCallsOf, hlt, hlc, ← htail]
          simp
    | none =>
      cases hlc : lc.contentSections with
      | some c =>
        by_cases h2 : faults n = true
        · simp only [txUpsertContents, hlt, hlc, h2, if_true, Except.error.injEq] at h
          exact ⟨[], by rw [← h]; simp, List.nil_prefix⟩
        · simp only [txUpsertContents, hlt, hlc, h2, Bool.false_eq_true, if_neg,
            not_false_iff] at h
          obtain ⟨pre, hpre, tail, htail⟩ := ih h
          refine ⟨⟨LocalizedContentType.PROBLEM_CONTENT, lc.locale, jsonStringify c⟩ :: pre,
            by rw [hpre]; simp, ⟨tail, ?_⟩⟩
          simp only [upsertCallsOf, hlt, hlc, ← htail]
          simp
      | none =>
        simp only [txUpsertContents, hlt, hlc] at h
        obtain ⟨pre, hpre, tail, htail⟩ := ih h
        exact ⟨pre, hpre, ⟨tail, by simp only [upsertCallsOf, hlt, hlc, ← htail]; simp⟩⟩

/-- A successful tag phase computes exactly `setProblemTags`. -/
theorem txSetProblemTags_ok {faults : Nat → Bool} {problem : ProblemEntity}
    {problemTags : List ProblemTagEntity} {db db2 : DBState} {n n2 : Nat}
    (h : txSetProblemTags faults problem problemTags db n = Except.ok (db2, n2)) :
    db2 = { db with problemTagMaps := (setProblemTags problem problemTags db.problemTagMaps).1 } := by
  unfold txSetProblemTags at h
  by_cases h1 : faults n = true
  · simp [txWrite, h1] at h
  · by_cases hlen : problemTags.length = 0
    · simp only [txWrite, h1, Bool.false_eq_true, if_neg, not_false_iff, hlen, if_pos,
        Except.ok.injEq, Prod.mk.injEq] at h
      rw [← h.1]
      simp [setProblemTags, hlen]
    · by_cases h2 : faults (n + 1) = true
      · simp [txWrite, h1, h2, hlen] at h
      · simp only [txWrite, h1, h2, Bool.false_eq_true, if_neg, not_false_iff, hlen,
          if_false, Except.ok.injEq, Prod.mk.injEq] at h
        rw [← h.1]
        simp [setProblemTags, hlen]

/-- A successful transaction body computes exactly the pure
`applyUpdateProblemStatement`, with the saved problem entity carrying
the requested locales. -/
theorem updateProblemStatementTx_ok {faults : Nat → Bool} {problem : ProblemEntity}
    {request : UpdateProblemStatementRequestDto} {tags : List ProblemTagEntity}
    {db db2 : DBState} {n n2 : Nat}
    (h : updateProblemStatementTx faults problem request tags db n = Except.ok (db2, n2)) :
    applyUpdateProblemStatement problem request tags db =
      some ({ problem with locales := request.localizedContents.map (fun lc => lc.locale) }, db2) := by
  unfold updateProblemStatementTx at h
  split at h
  · exact absurd h (by simp)
  rename_i db1 n1 hs
  split at h
  · exact absurd h (by simp)
  rename_i dbd nd hd
  split at h
  · exact absurd h (by simp)
  rename_i dbu nu accu hu
  split at h
  · exact absurd h (by simp)
  rename_i dbt nt ht
  split at h
  · exact absurd h (by simp)
  rename_i db5 n5 hw
  have hs2 := txSamples_ok hs
  have hd2 := txDeleteLocales_ok _ hd
  have hu2 := (txUpsertContents_ok _ hu).1
  have ht2 := txSetProblemTags_ok ht
  unfold txWrite at hw
  by_cases hf : faults nt = true
  · rw [if_pos hf] at hw
    exact absurd hw (by simp)
  · rw [if_neg hf] at hw
    simp only [Except.ok.injEq, Prod.mk.injEq] at hw h
    simp only [applyUpdateProblemStatement, hs2]
    subst hd2 hu2 ht2
    rw [hw.1, h.1]

/-- An aborting transaction body has autocommitted exactly some prefix
of the request's upsert-call sequence (empty when the abort precedes the
upsert loop). -/
theorem updateProblemStatementTx_err {faults : Nat → Bool} {problem : ProblemEntity}
    {request : UpdateProblemStatementRequestDto} {tags : List ProblemTagEntity}
    {db : DBState} {n : Nat} {committed : List UpsertCall}
    (h : updateProblemStatementTx faults problem request tags db n = Except.error committed) :
    committed <+: upsertCallsOf request.localizedContents := by
  unfold updateProblemStatementTx at h
  split at h
  · simp only [Except.error.injEq] at h
    rw [← h]
    exact List.nil_prefix
  rename_i db1 n1 hs
  split at h
  · simp only [Except.error.injEq] at h
    rw [← h]
    exact List.nil_prefix
  rename_i dbd nd hd
  split at h
  · rename_i a ha
    simp only [Except.error.injEq] at h
    obtain ⟨pre, hpre, hprefix⟩ := txUpsertContents_err _ ha
    rw [List.nil_append] at hpre
    rw [← h, hpre]
    exact hprefix
  rename_i dbu nu accu hu
  split at h
  · simp only [Except.error.injEq] at h
    have hfull := (txUpsertContents_ok _ hu).2
    rw [List.nil_append] at hfull
    rw [← h, hfull]
  rename_i dbt nt ht
  split at h
  · simp only [Except.error.injEq] at h
    have hfull := (txUpsertContents_ok _ hu).2
    rw [List.nil_append] at hfull
    rw [← h, hfull]
  · exact absurd h (by simp)

/-- C1 counterexample: with the tag-replacement step failing, the
transaction aborts and rolls back — yet the title and content upserts,
issued without the transactional entity manager, are already committed
and survive the abort: the store does not return to its initial state,
so not all of the operation's writes execute inside the transaction and
a failure does not abort them all. -/
theorem updateProblemStatement_upserts_survive_cx :
    updateProblemStatement (fun n => n == 2) exProblem exFullRequest [] exDB =
      (none, exDBLeaked) ∧
    exDBLeaked ≠ exDB ∧
    lcGet exDBLeaked.localizedContents 1 LocalizedContentType.PROBLEM_TITLE "en" = some "T" ∧
    lcGet exDB.localizedContents 1 LocalizedContentType.PROBLEM_TITLE "en" = none :=
  ⟨by rfl, by decide, by rfl, by rfl⟩

/-- C1, amended: the sample overwrite, the locale-row deletions, the tag
replacement and the problem-row update run inside the single
transaction, but the title/content upserts autocommit outside it. For
every fault pattern, `updateProblemStatement` therefore either aborts
with the store equal to the initial store plus some prefix of the
request's upsert calls — every transactional write rolled back, only
already-performed upserts surviving — or commits precisely the full pure
update and returns true. -/
theorem updateProblemStatement_partial_rollback (faults : Nat → Bool)
    (problem : ProblemEntity) (request : UpdateProblemStatementRequestDto)
    (tags : List ProblemTagEntity) (db : DBState) :
    (∃ committed, committed <+: upsertCallsOf request.localizedContents ∧
      updateProblemStatement faults problem request tags db =
        (none, { db with localizedContents :=
          applyUpsertCalls problem.id committed db.localizedContents })) ∨
    (∃ db2, applyUpdateProblemStatement problem request tags db =
        some ({ problem with locales := request.localizedContents.map (fun lc => lc.locale) }, db2) ∧
      updateProblemStatement faults problem request tags db = (some true, db2)) := by
  unfold updateProblemStatement
  cases h : updateProblemStatementTx faults problem request tags db 0 with
  | error committed => exact Or.inl ⟨committed, updateProblemStatementTx_err h, rfl⟩
  | ok x =>
    obtain ⟨db2, n2⟩ := x
    exact Or.inr ⟨db2, updateProblemStatementTx_ok h, rfl⟩

/-- Searching after a data-only rewrite of the matching rows finds the
rewritten first match. -/
theorem find?_map_branch {α : Type} (l : List α) (p : α → Bool) (g : α → α)
    (hpg : ∀ r, p (g r) = p r) :
    (l.map (fun r => if p r then g r else r)).find? p = (l.find? p).map g := by
  induction l with
  | nil => rfl
  | cons r rest ih =>
    cases hk : p r with
    | true =>
      rw [List.map_cons, if_pos hk,
        @List.find?_cons_of_pos _ p (g r) (rest.map _) (by rw [hpg]; exact hk),
        @List.find?_cons_of_pos _ p r rest hk]
      rfl
    | false =>
      rw [List.map_cons, if_neg (by simp [hk]),
        @List.find?_cons_of_neg _ p r (rest.map _) (by simp [hk]),
        @List.find?_cons_of_neg _ p r rest (by simp [hk])]
      exact ih

/-- A branch rewrite that never touches rows matched by a disjoint
predicate leaves that predicate's search result unchanged. -/
theorem find?_map_branch_other {α : Type} (l : List α) (p1 p2 : α → Bool) (g : α → α)
    (hpg : ∀ r, p2 (g r) = p2 r) (hdisj : ∀ r, p2 r = true → p1 r = false) :
    (l.map (fun r => if p1 r then g r else r)).find? p2 = l.find? p2 := by
  induction l with
  | nil => rfl
  | cons r rest ih =>
    cases hk : p2 r with
    | true =>
      rw [List.map_cons, if_neg (by simp [hdisj r hk]),
        @List.find?_cons_of_pos _ p2 r (rest.map _) hk,
        @List.find?_cons_of_pos _ p2 r rest hk]
    | false =>
      have hhead : p2 (if p1 r then g r else r) = false := by
        cases h1 : p1 r with
        | true => simp [hpg, hk]
        | false => simp [hk]
      rw [List.map_cons,
        @List.find?_cons_of_neg _ p2 _ (rest.map _) (by simp [hhead]),
        @List.find?_cons_of_neg _ p2 r rest (by simp [hk])]
      exact ih

/-- Filtering away only rows that the search predicate rejects leaves
the search result unchanged. -/
theorem find?_filter_of_imp {α : Type} (l : List α) (p q : α → Bool)
    (h : ∀ r, p r = true → q r = true) :
    (l.filter q).find? p = l.find? p := by
  induction l with
  | nil => rfl
  | cons r rest ih =>
    cases hk : p r with
    | true =>
      rw [List.filter_cons_of_pos (h r hk),
        @List.find?_cons_of_pos _ p r (rest.filter q) hk,
        @List.find?_cons_of_pos _ p r rest hk]
    | false =>
      cases hq : q r with
      | true =>
        rw [List.filter_cons_of_pos hq,
          @List.find?_cons_of_neg _ p r (rest.filter q) (by simp [hk]),
          @List.find?_cons_of_neg _ p r rest (by simp [hk])]
        exact ih
      | false =>
        rw [List.filter_cons_of_neg (by simp [hq]),
          @List.find?_cons_of_neg _ p r rest (by simp [hk])]
        exact ih

/-- `lcDelete` at a concrete locale filters on key inequality. -/
theorem lcDelete_some (rows : List LocalizedContentRow) (oid : Nat)
    (t : LocalizedContentType) (l : Locale) :
    lcDelete rows oid t (some l) = rows.filter (fun r => !(lcKeyEq r oid t l)) := by
  unfold lcDelete
  exact List.filter_congr (fun r _ => by simp [lcKeyEq, Option.elim, Bool.and_assoc])

/-- A row exists at a key iff `lcGet` of the key is `some`. -/
theorem lcHasRow_eq_isSome (rows : List LocalizedContentRow) (oid : Nat)
    (t : LocalizedContentType) (l : Locale) :
    lcHasRow rows oid t l = (lcGet rows oid t l).isSome := by
  unfold lcHasRow lcGet
  rw [Option.isSome_map']
  cases hany : rows.any (fun r => lcKeyEq r oid t l) with
  | true => exact (List.find?_isSome.mpr (List.any_eq_true.mp hany)).symm
  | false =>
    have hn : rows.find? (fun r => lcKeyEq r oid t l) = none :=
      List.find?_eq_none.mpr (fun x hx hpx => by
        have hc : rows.any (fun r => lcKeyEq r oid t l) = true :=
          List.any_eq_true.mpr ⟨x, hx, hpx⟩
        rw [hany] at hc
        exact Bool.false_ne_true hc)
    rw [hn]
    rfl

/-- `lcCreateOrUpdate` stores exactly the given text at its key. -/
theorem lcGet_createOrUpdate_self (rows : List LocalizedContentRow) (oid : Nat)
    (t : LocalizedContentType) (l : Locale) (v : String) :
    lcGet (lcCreateOrUpdate rows oid t l v) oid t l = some v := by
  unfold lcCreateOrUpdate
  cases hany : rows.any (fun r => lcKeyEq r oid t l) with
  | true =>
    rw [if_pos rfl]
    unfold lcGet
    rw [find?_map_branch rows (fun r => lcKeyEq r oid t l) (fun r => { r with data := v })
      (fun r => rfl)]
    obtain ⟨r0, hr0⟩ := Option.isSome_iff_exists.mp (List.find?_isSome.mpr (List.any_eq_true.mp hany))
    rw [hr0]
    rfl
  | false =>
    rw [if_neg (by simp)]
    unfold lcGet
    rw [List.find?_append]
    have hn : rows.find? (fun r => lcKeyEq r oid t l) = none :=
      List.find?_eq_none.mpr (fun x hx hpx => by
        have hc : rows.any (fun r => lcKeyEq r oid t l) = true :=
          List.any_eq_true.mpr ⟨x, hx, hpx⟩
        rw [hany] at hc
        exact Bool.false_ne_true hc)
    rw [hn]
    simp [lcKeyEq]

/-- `lcCreateOrUpdate` leaves every other key untouched. -/
theorem lcGet_createOrUpdate_other (rows : List LocalizedContentRow) (oid : Nat)
    (t : LocalizedContentType) (l : Locale) (v : String) (oid2 : Nat)
    (t2 : LocalizedContentType) (l2 : Locale) (h : ¬(oid2 = oid ∧ t2 = t ∧ l2 = l)) :
    lcGet (lcCreateOrUpdate rows oid t l v) oid2 t2 l2 = lcGet rows oid2 t2 l2 := by
  unfold lcCreateOrUpdate
  cases hany : rows.any (fun r => lcKeyEq r oid t l) with
  | true =>
    rw [if_pos rfl]
    unfold lcGet
    rw [find?_map_branch_other rows (fun r => lcKeyEq r oid t l) (fun r => lcKeyEq r oid2 t2 l2)
      (fun r => { r with data := v }) (fun r => rfl)]
    intro r hr
    simp only [lcKeyEq, decide_eq_true_eq] at hr
    simp only [lcKeyEq, decide_eq_false_iff_not]
    intro hc
    exact h ⟨hr.1.symm.trans hc.1, hr.2.1.symm.trans hc.2.1, hr.2.2.symm.trans hc.2.2⟩
  | false =>
    rw [if_neg (by simp)]
    unfold lcGet
    rw [List.find?_append]
    have hone : List.find? (fun r => lcKeyEq r oid2 t2 l2) [⟨oid, t, l, v⟩] = none := by
      rw [List.find?_eq_none]
      intro x hx
      rw [List.mem_singleton] at hx
      subst hx
      simp only [lcKeyEq, decide_eq_true_eq]
      intro hc
      exact h ⟨hc.1.symm, hc.2.1.symm, hc.2.2.symm⟩
    rw [hone, Option.or_none]

/-- `lcDelete` erases its own key. -/
theorem lcGet_delete_self (rows : List LocalizedContentRow) (oid : Nat)
    (t : LocalizedContentType) (l : Locale) :
    lcGet (lcDelete rows oid t (some l)) oid t l = none := by
  rw [lcDelete_some]
  unfold lcGet
  have hn : (rows.filter (fun r => !(lcKeyEq r oid t l))).find? (fun r => lcKeyEq r oid t l) = none := by
    rw [List.find?_eq_none]
    intro x hx
    have := (List.mem_filter.mp hx).2
    simp only [Bool.not_eq_true'] at this
    simp [this]
  rw [hn]
  rfl

/-- `lcDelete` leaves every other key untouched. -/
theorem lcGet_delete_other (rows : List LocalizedContentRow) (oid : Nat)
    (t : LocalizedContentType) (l : Locale) (oid2 : Nat) (t2 : LocalizedContentType)
    (l2 : Locale) (h : ¬(oid2 = oid ∧ t2 = t ∧ l2 = l)) :
    lcGet (lcDelete rows oid t (some l)) oid2 t2 l2 = lcGet rows oid2 t2 l2 := by
  rw [lcDelete_some]
  unfold lcGet
  rw [find?_filter_of_imp]
  intro r hr
  simp only [lcKeyEq, decide_eq_true_eq] at hr
  simp only [lcKeyEq, Bool.not_eq_true', decide_eq_false_iff_not]
  intro hc
  exact h ⟨hr.1.symm.trans hc.1, hr.2.1.symm.trans hc.2.1, hr.2.2.symm.trans hc.2.2⟩

/-- A key absent before `lcDelete` is still absent after. -/
theorem lcGet_delete_none (rows : List LocalizedContentRow) (oid : Nat)
    (t : LocalizedContentType) (l : Locale) (oid2 : Nat) (t2 : LocalizedContentType)
    (l2 : Locale) (h : lcGet rows oid2 t2 l2 = none) :
    lcGet (lcDelete rows oid t (some l)) oid2 t2 l2 = none := by
  by_cases hk : oid2 = oid ∧ t2 = t ∧ l2 = l
  · obtain ⟨h1, h2, h3⟩ := hk
    subst h1 h2 h3
    exact lcGet_delete_self rows oid2 t2 l2
  · rw [lcGet_delete_other rows oid t l oid2 t2 l2 hk]
    exact h

/-- A key present before `lcCreateOrUpdate` is still present after. -/
theorem lcGet_createOrUpdate_isSome_mono (rows : List LocalizedContentRow) (oid : Nat)
    (t : LocalizedContentType) (l : Locale) (v : String) (oid2 : Nat)
    (t2 : LocalizedContentType) (l2 : Locale)
    (h : (lcGet rows oid2 t2 l2).isSome = true) :
    (lcGet (lcCreateOrUpdate rows oid t l v) oid2 t2 l2).isSome = true := by
  by_cases hk : oid2 = oid ∧ t2 = t ∧ l2 = l
  · obtain ⟨h1, h2, h3⟩ := hk
    subst h1 h2 h3
    rw [lcGet_createOrUpdate_self]
    rfl
  · rw [lcGet_createOrUpdate_other rows oid t l v oid2 t2 l2 hk]
    exact h

/-- In a store with no rows owned by an object, every one of its keys is
absent. -/
theorem lcGet_none_of_no_object (rows : List LocalizedContentRow) (pid : Nat)
    (h : ∀ r ∈ rows, r.objectId ≠ pid) (t : LocalizedContentType) (l : Locale) :
    lcGet rows pid t l = none := by
  unfold lcGet
  have hn : rows.find? (fun r => lcKeyEq r pid t l) = none := by
    rw [List.find?_eq_none]
    intro x hx
    simp only [lcKeyEq, decide_eq_true_eq]
    intro hc
    exact h x hx hc.1
  rw [hn]
  rfl

/-- The deletion loop leaves keys of locales it does not delete
untouched. -/
theorem deleteLocalesData_get_not_mem (pid : Nat) (dels : List Locale)
    (rows : List LocalizedContentRow) (oid2 : Nat) (t2 : LocalizedContentType)
    (l2 : Locale) (h : ¬ l2 ∈ dels) :
    lcGet (deleteLocalesData pid dels rows) oid2 t2 l2 = lcGet rows oid2 t2 l2 := by
  induction dels generalizing rows with
  | nil => rfl
  | cons d rest ih =>
    have hne : l2 ≠ d := fun he => h (he ▸ List.mem_cons_self d rest)
    have hr : ¬ l2 ∈ rest := fun hm => h (List.mem_cons_of_mem d hm)
    simp only [deleteLocalesData]
    rw [ih _ hr,
      lcGet_delete_other _ _ _ _ _ _ _ (fun hc => hne hc.2.2),
      lcGet_delete_other _ _ _ _ _ _ _ (fun hc => hne hc.2.2)]

/-- The deletion loop erases the title and content rows of every locale
it deletes. -/
theorem deleteLocalesData_get_mem (pid : Nat) (dels : List Locale)
    (rows : List LocalizedContentRow) (t2 : LocalizedContentType) (l2 : Locale)
    (hmem : l2 ∈ dels)
    (ht : t2 = LocalizedContentType.PROBLEM_TITLE ∨ t2 = LocalizedContentType.PROBLEM_CONTENT) :
    lcGet (deleteLocalesData pid dels rows) pid t2 l2 = none := by
  induction dels generalizing rows with
  | nil => exact absurd hmem (List.not_mem_nil l2)
  | cons d rest ih =>
    simp only [deleteLocalesData]
    by_cases hr : l2 ∈ rest
    · exact ih _ hr
    · have hl2 : l2 = d := by
        rcases List.mem_cons.mp hmem with h1 | h2
        · exact h1
        · exact absurd h2 hr
      subst hl2
      rw [deleteLocalesData_get_not_mem _ _ _ _ _ _ hr]
      cases ht with
      | inl h1 =>
        subst h1
        rw [lcGet_delete_other _ _ _ _ _ _ _
          (fun hc => LocalizedContentType.noConfusion hc.2.1)]
        exact lcGet_delete_self _ _ _ _
      | inr h1 =>
        subst h1
        exact lcGet_delete_self _ _ _ _

/-- The upsert loop leaves keys of unrequested locales untouched. -/
theorem upsertContentsData_get_frame (pid : Nat) (contents : List UpdateLocalizedContentDto)
    (rows : List LocalizedContentRow) (oid2 : Nat) (t2 : LocalizedContentType) (l2 : Locale)
    (h : ¬ l2 ∈ contents.map (fun lc => lc.locale)) :
    lcGet (upsertContentsData pid contents rows) oid2 t2 l2 = lcGet rows oid2 t2 l2 := by
  induction contents generalizing rows with
  | nil => rfl
  | cons lc rest ih =>
    have hne : l2 ≠ lc.locale := fun he => h (by
      rw [List.map_cons]
      exact he ▸ List.mem_cons_self _ _)
    have hr : ¬ l2 ∈ rest.map (fun lc => lc.locale) := fun hm => h (by
      rw [List.map_cons]
      exact List.mem_cons_of_mem _ hm)
    cases hlt : lc.title with
    | some t =>
      cases hlc : lc.contentSections with
      | some c =>
        simp only [upsertContentsData, hlt, hlc]
        rw [ih _ hr,
          lcGet_createOrUpdate_other _ _ _ _ _ _ _ _ (fun hc => hne hc.2.2),
          lcGet_createOrUpdate_other _ _ _ _ _ _ _ _ (fun hc => hne hc.2.2)]
      | none =>
        simp only [upsertContentsData, hlt, hlc]
        rw [ih _ hr, lcGet_createOrUpdate_other _ _ _ _ _ _ _ _ (fun hc => hne hc.2.2)]
    | none =>
      cases hlc : lc.contentSections with
      | some c =>
        simp only [upsertContentsData, hlt, hlc]
        rw [ih _ hr, lcGet_createOrUpdate_other _ _ _ _ _ _ _ _ (fun hc => hne hc.2.2)]
      | none =>
        simp only [upsertContentsData, hlt, hlc]
        exact ih _ hr

/-- With pairwise distinct requested locales, an entry with a non-null
title ends with exactly that title stored. -/
theorem upsertContentsData_title_some (pid : Nat) (contents : List UpdateLocalizedContentDto)
    (rows : List LocalizedContentRow)
    (hnd : (contents.map (fun lc => lc.locale)).Nodup)
    (lc : UpdateLocalizedContentDto) (hmem : lc ∈ contents) (t : String)
    (ht : lc.title = some t) :
    lcGet (upsertContentsData pid contents rows) pid LocalizedContentType.PROBLEM_TITLE lc.locale =
      some t := by
  induction contents generalizing rows with
  | nil => exact absurd hmem (List.not_mem_nil lc)
  | cons lc0 rest ih =>
    rw [List.map_cons, List.nodup_cons] at hnd
    obtain ⟨h0, hrest⟩ := hnd
    rcases List.mem_cons.mp hmem with heq | hmem2
    · subst heq
      cases hlc : lc.contentSections with
      | some c =>
        simp only [upsertContentsData, ht, hlc]
        rw [upsertContentsData_get_frame _ _ _ _ _ _ h0,
          lcGet_createOrUpdate_other _ _ _ _ _ _ _ _
            (fun hcc => LocalizedContentType.noConfusion hcc.2.1)]
        exact lcGet_createOrUpdate_self _ _ _ _ _
      | none =>
        simp only [upsertContentsData, ht, hlc]
        rw [upsertContentsData_get_frame _ _ _ _ _ _ h0]
        exact lcGet_createOrUpdate_self _ _ _ _ _
    · simp only [upsertContentsData]
      exact ih _ hrest hmem2

/-- With pairwise distinct requested locales, an entry with a null title
leaves the stored title untouched. -/
theorem upsertContentsData_title_none (pid : Nat) (contents : List UpdateLocalizedContentDto)
    (rows : List LocalizedContentRow)
    (hnd : (contents.map (fun lc => lc.locale)).Nodup)
    (lc : UpdateLocalizedContentDto) (hmem : lc ∈ contents) (ht : lc.title = none) :
    lcGet (upsertContentsData pid contents rows) pid LocalizedContentType.PROBLEM_TITLE lc.locale =
      lcGet rows pid LocalizedContentType.PROBLEM_TITLE lc.locale := by
  induction contents generalizing rows with
  | nil => exact absurd hmem (List.not_mem_nil lc)
  | cons lc0 rest ih =>
    rw [List.map_cons, List.nodup_cons] at hnd
    obtain ⟨h0, hrest⟩ := hnd
    rcases List.mem_cons.mp hmem with heq | hmem2
    · subst heq
      cases hlc : lc.contentSections with
      | some c =>
        simp only [upsertContentsData, ht, hlc]
        rw [upsertContentsData_get_frame _ _ _ _ _ _ h0,
          lcGet_createOrUpdate_other _ _ _ _ _ _ _ _
            (fun hcc => LocalizedContentType.noConfusion hcc.2.1)]
      | none =>
        simp only [upsertContentsData, ht, hlc]
        rw [upsertContentsData_get_frame _ _ _ _ _ _ h0]
    · have hne : lc.locale ≠ lc0.locale := fun he =>
        h0 (he ▸ List.mem_map_of_mem (fun lc2 => lc2.locale) hmem2)
      cases hlt0 : lc0.title with
      | some t0 =>
        cases hlc0 : lc0.contentSections with
        | some c0 =>
          simp only [upsertContentsData, hlt0, hlc0]
          rw [ih _ hrest hmem2,
            lcGet_createOrUpdate_other _ _ _ _ _ _ _ _ (fun hc => hne hc.2.2),
            lcGet_createOrUpdate_other _ _ _ _ _ _ _ _ (fun hc => hne hc.2.2)]
        | none =>
          simp only [upsertContentsData, hlt0, hlc0]
          rw [ih _ hrest hmem2,
            lcGet_createOrUpdate_other _ _ _ _ _ _ _ _ (fun hc => hne hc.2.2)]
      | none =>
        cases hlc0 : lc0.contentSections with
        | some c0 =>
          simp only [upsertContentsData, hlt0, hlc0]
          rw [ih _ hrest hmem2,
            lcGet_createOrUpdate_other _ _ _ _ _ _ _ _ (fun hc => hne hc.2.2)]
        | none =>
          simp only [upsertContentsData, hlt0, hlc0]
          exact ih _ hrest hmem2

/-- With pairwise distinct requested locales, an entry with non-null
content sections ends with exactly their serialization stored. -/
theorem upsertContentsData_content_some (pid : Nat) (contents : List UpdateLocalizedContentDto)
    (rows : List LocalizedContentRow)
    (hnd : (contents.map (fun lc => lc.locale)).Nodup)
    (lc : UpdateLocalizedContentDto) (hmem : lc ∈ contents) (c : String)
    (hc : lc.contentSections = some c) :
    lcGet (upsertContentsData pid contents rows) pid LocalizedContentType.PROBLEM_CONTENT lc.locale =
      some (jsonStringify c) := by
  induction contents generalizing rows with
  | nil => exact absurd hmem (List.not_mem_nil lc)
  | cons lc0 rest ih =>
    rw [List.map_cons, List.nodup_cons] at hnd
    obtain ⟨h0, hrest⟩ := hnd
    rcases List.mem_cons.mp hmem with heq | hmem2
    · subst heq
      cases hlt : lc.title with
      | some t =>
        simp only [upsertContentsData, hlt, hc]
        rw [upsertContentsData_get_frame _ _ _ _ _ _ h0]
        exact lcGet_createOrUpdate_self _ _ _ _ _
      | none =>
        simp only [upsertContentsData, hlt, hc]
        rw [upsertContentsData_get_frame _ _ _ _ _ _ h0]
        exact lcGet_createOrUpdate_self _ _ _ _ _
    · simp only [upsertContentsData]
      exact ih _ hrest hmem2

/-- With pairwise distinct requested locales, an entry with null content
sections leaves the stored content untouched. -/
theorem upsertContentsData_content_none (pid : Nat) (contents : List UpdateLocalizedContentDto)
    (rows : List LocalizedContentRow)
    (hnd : (contents.map (fun lc => lc.locale)).Nodup)
    (lc : UpdateLocalizedContentDto) (hmem : lc ∈ contents)
    (hc : lc.contentSections = none) :
    lcGet (upsertContentsData pid contents rows) pid LocalizedContentType.PROBLEM_CONTENT lc.locale =
      lcGet rows pid LocalizedContentType.PROBLEM_CONTENT lc.locale := by
  induction contents generalizing rows with
  | nil => exact absurd hmem (List.not_mem_nil lc)
  | cons lc0 rest ih =>
    rw [List.map_cons, List.nodup_cons] at hnd
    obtain ⟨h0, hrest⟩ := hnd
    rcases List.mem_cons.mp hmem with heq | hmem2
    · subst heq
      cases hlt : lc.title with
      | some t =>
        simp only [upsertContentsData, hlt, hc]
        rw [upsertContentsData_get_frame _ _ _ _ _ _ h0,
          lcGet_createOrUpdate_other _ _ _ _ _ _ _ _
            (fun hcc => LocalizedContentType.noConfusion hcc.2.1)]
      | none =>
        simp only [upsertContentsData, hlt, hc]
        rw [upsertContentsData_get_frame _ _ _ _ _ _ h0]
    · have hne : lc.locale ≠ lc0.locale := fun he =>
        h0 (he ▸ List.mem_map_of_mem (fun lc2 => lc2.locale) hmem2)
      cases hlt0 : lc0.title with
      | some t0 =>
        cases hlc0 : lc0.contentSections with
        | some c0 =>
          simp only [upsertContentsData, hlt0, hlc0]
          rw [ih _ hrest hmem2,
            lcGet_createOrUpdate_other _ _ _ _ _ _ _ _ (fun hcc => hne hcc.2.2),
            lcGet_createOrUpdate_other _ _ _ _ _ _ _ _ (fun hcc => hne hcc.2.2)]
        | none =>
          simp only [upsertContentsData, hlt0, hlc0]
          rw [ih _ hrest hmem2,
            lcGet_createOrUpdate_other _ _ _ _ _ _ _ _ (fun hcc => hne hcc.2.2)]
      | none =>
        cases hlc0 : lc0.contentSections with
        | some c0 =>
          simp only [upsertContentsData, hlt0, hlc0]
          rw [ih _ hrest hmem2,
            lcGet_createOrUpdate_other _ _ _ _ _ _ _ _ (fun hcc => hne hcc.2.2)]
        | none =>
          simp only [upsertContentsData, hlt0, hlc0]
          exact ih _ hrest hmem2

/-- The creation loop leaves keys of unlisted locales untouched. -/
theorem createStatementContents_get_frame (pid : Nat)
    (entries : List ProblemLocalizedContentDto) (rows : List LocalizedContentRow)
    (oid2 : Nat) (t2 : LocalizedContentType) (l2 : Locale)
    (h : ¬ l2 ∈ entries.map (fun e => e.locale)) :
    lcGet (createStatementContents pid entries rows) oid2 t2 l2 = lcGet rows oid2 t2 l2 := by
  induction entries generalizing rows with
  | nil => rfl
  | cons e rest ih =>
    have hne : l2 ≠ e.locale := fun he => h (by
      rw [List.map_cons]
      exact he ▸ List.mem_cons_self _ _)
    have hr : ¬ l2 ∈ rest.map (fun e => e.locale) := fun hm => h (by
      rw [List.map_cons]
      exact List.mem_cons_of_mem _ hm)
    simp only [createStatementContents]
    rw [ih _ hr,
      lcGet_createOrUpdate_other _ _ _ _ _ _ _ _ (fun hc => hne hc.2.2),
      lcGet_createOrUpdate_other _ _ _ _ _ _ _ _ (fun hc => hne hc.2.2)]

/-- Keys present before the creation loop are still present after it. -/
theorem createStatementContents_isSome_mono (pid : Nat)
    (entries : List ProblemLocalizedContentDto) (rows : List LocalizedContentRow)
    (oid2 : Nat) (t2 : LocalizedContentType) (l2 : Locale)
    (h : (lcGet rows oid2 t2 l2).isSome = true) :
    (lcGet (createStatementContents pid entries rows) oid2 t2 l2).isSome = true := by
  induction entries generalizing rows with
  | nil => exact h
  | cons e rest ih =>
    simp only [createStatementContents]
    exact ih _ (lcGet_createOrUpdate_isSome_mono _ _ _ _ _ _ _ _
      (lcGet_createOrUpdate_isSome_mono _ _ _ _ _ _ _ _ h))

/-- The creation loop stores a title row and a content row for every
listed locale. -/
theorem createStatementContents_get_isSome (pid : Nat)
    (entries : List ProblemLocalizedContentDto) (rows : List LocalizedContentRow)
    (l : Locale) (t2 : LocalizedContentType)
    (hmem : l ∈ entries.map (fun e => e.locale))
    (ht : t2 = LocalizedContentType.PROBLEM_TITLE ∨ t2 = LocalizedContentType.PROBLEM_CONTENT) :
    (lcGet (createStatementContents pid entries rows) pid t2 l).isSome = true := by
  induction entries generalizing rows with
  | nil => exact absurd hmem (List.not_mem_nil l)
  | cons e rest ih =>
    rw [List.map_cons, List.mem_cons] at hmem
    rcases hmem with heq | hmem2
    · subst heq
      simp only [createStatementContents]
      apply createStatementContents_isSome_mono
      cases ht with
      | inl h1 =>
        subst h1
        rw [lcGet_createOrUpdate_other _ _ _ _ _ _ _ _
          (fun hc => LocalizedContentType.noConfusion hc.2.1)]
        rw [lcGet_createOrUpdate_self]
        rfl
      | inr h1 =>
        subst h1
        rw [lcGet_createOrUpdate_self]
        rfl
    · simp only [createStatementContents]
      exact ih _ hmem2

/-- Saving a problem row does not touch the localized content table. -/
theorem saveProblem_lc (db : DBState) (p : ProblemEntity) :
    (saveProblem db p).localizedContents = db.localizedContents := by
  unfold saveProblem
  split <;> rfl

/-- Saving a judge info row does not touch the localized content table. -/
theorem saveJudgeInfo_lc (db : DBState) (j : ProblemJudgeInfoEntity) :
    (saveJudgeInfo db j).localizedContents = db.localizedContents := by
  unfold saveJudgeInfo
  split <;> rfl

/-- Saving a sample row does not touch the localized content table. -/
theorem saveProblemSample_lc (db : DBState) (s : ProblemSampleEntity) :
    (saveProblemSample db s).localizedContents = db.localizedContents := by
  unfold saveProblemSample
  split <;> rfl

/-- The sample step does not touch the localized content table. -/
theorem applySamples_lc {problem : ProblemEntity} {s : Option ProblemSampleData}
    {db db1 : DBState} (h : applySamples problem s db = some db1) :
    db1.localizedContents = db.localizedContents := by
  cases s with
  | none =>
    simp only [applySamples, Option.some.injEq] at h
    rw [← h]
  | some v =>
    simp only [applySamples] at h
    cases hf : db.problemSamples.find? (fun ps => ps.problemId == problem.id) with
    | none =>
      rw [hf] at h
      exact absurd h (by simp)
    | some ps =>
      rw [hf] at h
      simp only [Option.some.injEq] at h
      rw [← h, saveProblemSample_lc]

/-- Keys present before the upsert loop are still present after it. -/
theorem upsertContentsData_isSome_mono (pid : Nat) (contents : List UpdateLocalizedContentDto)
    (rows : List LocalizedContentRow) (oid2 : Nat) (t2 : LocalizedContentType) (l2 : Locale)
    (h : (lcGet rows oid2 t2 l2).isSome = true) :
    (lcGet (upsertContentsData pid contents rows) oid2 t2 l2).isSome = true := by
  induction contents generalizing rows with
  | nil => exact h
  | cons lc rest ih =>
    cases hlt : lc.title with
    | some t =>
      cases hlc : lc.contentSections with
      | some c =>
        simp only [upsertContentsData, hlt, hlc]
        exact ih _ (lcGet_createOrUpdate_isSome_mono _ _ _ _ _ _ _ _
          (lcGet_createOrUpdate_isSome_mono _ _ _ _ _ _ _ _ h))
      | none =>
        simp only [upsertContentsData, hlt, hlc]
        exact ih _ (lcGet_createOrUpdate_isSome_mono _ _ _ _ _ _ _ _ h)
    | none =>
      cases hlc : lc.contentSections with
      | some c =>
        simp only [upsertContentsData, hlt, hlc]
        exact ih _ (lcGet_createOrUpdate_isSome_mono _ _ _ _ _ _ _ _ h)
      | none =>
        simp only [upsertContentsData, hlt, hlc]
        exact ih _ h

/-- An entry with a non-null title ends with a title row stored for its
locale. -/
theorem upsertContentsData_isSome_of_title_some (pid : Nat)
    (contents : List UpdateLocalizedContentDto) (rows : List LocalizedContentRow)
    (lc : UpdateLocalizedContentDto) (hmem : lc ∈ contents) (t : String)
    (ht : lc.title = some t) :
    (lcGet (upsertContentsData pid contents rows) pid LocalizedContentType.PROBLEM_TITLE
      lc.locale).isSome = true := by
  induction contents generalizing rows with
  | nil => exact absurd hmem (List.not_mem_nil lc)
  | cons lc0 rest ih =>
    rcases List.mem_cons.mp hmem with heq | hmem2
    · subst heq
      cases hlc : lc.contentSections with
      | some c =>
        simp only [upsertContentsData, ht, hlc]
        exact upsertContentsData_isSome_mono _ _ _ _ _ _
          (lcGet_createOrUpdate_isSome_mono _ _ _ _ _ _ _ _
            (by rw [lcGet_createOrUpdate_self]; rfl))
      | none =>
        simp only [upsertContentsData, ht, hlc]
        exact upsertContentsData_isSome_mono _ _ _ _ _ _
          (by rw [lcGet_createOrUpdate_self]; rfl)
    · simp only [upsertContentsData]
      exact ih _ hmem2

/-- An entry with non-null content sections ends with a content row
stored for its locale. -/
theorem upsertContentsData_isSome_of_content_some (pid : Nat)
    (contents : List UpdateLocalizedContentDto) (rows : List LocalizedContentRow)
    (lc : UpdateLocalizedContentDto) (hmem : lc ∈ contents) (c : String)
    (hc : lc.contentSections = some c) :
    (lcGet (upsertContentsData pid contents rows) pid LocalizedContentType.PROBLEM_CONTENT
      lc.locale).isSome = true := by
  induction contents generalizing rows with
  | nil => exact absurd hmem (List.not_mem_nil lc)
  | cons lc0 rest ih =>
    rcases List.mem_cons.mp hmem with heq | hmem2
    · subst heq
      cases hlt : lc.title with
      | some t =>
        simp only [upsertContentsData, hlt, hc]
        exact upsertContentsData_isSome_mono _ _ _ _ _ _
          (by rw [lcGet_createOrUpdate_self]; rfl)
      | none =>
        simp only [upsertContentsData, hlt, hc]
        exact upsertContentsData_isSome_mono _ _ _ _ _ _
          (by rw [lcGet_createOrUpdate_self]; rfl)
    · simp only [upsertContentsData]
      exact ih _ hmem2

/-- Inverting a successful `applyUpdateProblemStatement`: the saved
entity carries the requested locales, and the localized content table is
the deletion loop followed by the upsert loop. -/
theorem applyUpdate_some_inv {problem : ProblemEntity}
    {request : UpdateProblemStatementRequestDto} {tags : List ProblemTagEntity}
    {db : DBState} {p2 : ProblemEntity} {db2 : DBState}
    (h : applyUpdateProblemStatement problem request tags db = some (p2, db2)) :
    p2 = { problem with locales := request.localizedContents.map (fun lc => lc.locale) } ∧
    db2.localizedContents =
      upsertContentsData problem.id request.localizedContents
        (deleteLocalesData problem.id
          (problem.locales.filter
            (fun l => !((request.localizedContents.map (fun lc => lc.locale)).contains l)))
          db.localizedContents) := by
  unfold applyUpdateProblemStatement at h
  cases ha : applySamples problem request.samples db with
  | none =>
    rw [ha] at h
    exact absurd h (by simp)
  | some db1 =>
    rw [ha] at h
    simp only [Option.some.injEq, Prod.mk.injEq] at h
    obtain ⟨hp, hdb⟩ := h
    refine ⟨hp.symm, ?_⟩
    rw [← hdb, saveProblem_lc]
    rw [applySamples_lc ha]

/-- The pieces of `createProblem`: the new row's id and locales, and the
localized content table produced by the creation loop. -/
theorem createProblem_parts (g : ProblemType → ProblemJudgeInfo) (owner : UserEntity)
    (ptype : ProblemType) (statement : ProblemStatementDto) (tags : List ProblemTagEntity)
    (db : DBState) :
    (createProblem g owner ptype statement tags db).1.id = nextProblemId db ∧
    (createProblem g owner ptype statement tags db).1.locales =
      statement.localizedContents.map (fun lc => lc.locale) ∧
    (createProblem g owner ptype statement tags db).2.localizedContents =
      createStatementContents (nextProblemId db) statement.localizedContents
        db.localizedContents := by
  refine ⟨rfl, rfl, ?_⟩
  simp only [createProblem]
  rw [saveProblemSample_lc, saveJudgeInfo_lc, saveProblem_lc]

/-- C2 counterexample: updating a problem with a request that introduces
locale `en` while leaving both fields null commits successfully, yet the
stored problem's `locales` contains `en` although neither a title row
nor a content row exists — the invariant as claimed fails. -/
theorem updateProblemStatement_locales_cx :
    updateProblemStatement (fun _ => false) exProblem exNullFieldRequest [] exDB =
      (some true, exDBAfter) ∧
    exDBAfter.problems = [exProblemAfter] ∧
    ¬ localesConsistent exDBAfter.localizedContents exProblemAfter := by
  refine ⟨by rfl, by rfl, ?_⟩
  intro h
  have hx := (h "en").mp (by simp [exProblemAfter, exProblem])
  simp [lcHasRow, exDBAfter, emptyDB] at hx

/-- C2, amended: `createProblem` establishes the locale invariant in a
store with no orphaned localized rows for the fresh id, and a successful
`updateProblemStatement` preserves it provided each requested entry's
null field already has its row stored (in particular, every locale new
to the problem supplies both fields non-null). A new locale with a null
field violates the invariant, as the counterexample shows. -/
theorem localesConsistent_after_mutations
    (g : ProblemType → ProblemJudgeInfo) (owner : UserEntity) (ptype : ProblemType)
    (statement : ProblemStatementDto) (ctags : List ProblemTagEntity) (cdb : DBState)
    (hfresh : ∀ r ∈ cdb.localizedContents, r.objectId ≠ nextProblemId cdb)
    (problem : ProblemEntity) (request : UpdateProblemStatementRequestDto)
    (utags : List ProblemTagEntity) (udb : DBState) (p2 : ProblemEntity) (udb2 : DBState)
    (hrun : applyUpdateProblemStatement problem request utags udb = some (p2, udb2))
    (hpre : localesConsistent udb.localizedContents problem)
    (hnew : ∀ lc ∈ request.localizedContents,
      (lc.title = none →
        lcHasRow udb.localizedContents problem.id LocalizedContentType.PROBLEM_TITLE
          lc.locale = true) ∧
      (lc.contentSections = none →
        lcHasRow udb.localizedContents problem.id LocalizedContentType.PROBLEM_CONTENT
          lc.locale = true)) :
    localesConsistent ((createProblem g owner ptype statement ctags cdb).2).localizedContents
      (createProblem g owner ptype statement ctags cdb).1 ∧
    localesConsistent udb2.localizedContents p2 := by
  constructor
  · obtain ⟨hid, hloc, hlc⟩ := createProblem_parts g owner ptype statement ctags cdb
    unfold localesConsistent
    intro l
    rw [hid, hloc, hlc]
    constructor
    · intro hl
      constructor
      · rw [lcHasRow_eq_isSome]
        exact createStatementContents_get_isSome _ _ _ _ _ hl (Or.inl rfl)
      · rw [lcHasRow_eq_isSome]
        exact createStatementContents_get_isSome _ _ _ _ _ hl (Or.inr rfl)
    · rintro ⟨hT, hC⟩
      by_contra hl
      rw [lcHasRow_eq_isSome, createStatementContents_get_frame _ _ _ _ _ _ hl,
        lcGet_none_of_no_object _ _ hfresh] at hT
      simp at hT
  · obtain ⟨hp2, hlc2⟩ := applyUpdate_some_inv hrun
    have hid : p2.id = problem.id := by rw [hp2]
    have hloc : p2.locales = request.localizedContents.map (fun lc => lc.locale) := by
      rw [hp2]
    unfold localesConsistent
    intro l
    rw [hid, hloc, hlc2]
    constructor
    · intro hl
      obtain ⟨lc, hlcmem, hleq⟩ := List.mem_map.mp hl
      subst hleq
      have hinmap : lc.locale ∈ request.localizedContents.map (fun lc2 => lc2.locale) :=
        List.mem_map_of_mem _ hlcmem
      have hnotdel : ¬ lc.locale ∈ problem.locales.filter
          (fun l2 => !((request.localizedContents.map (fun lc2 => lc2.locale)).contains l2)) := by
        intro hd
        have h2 := (List.mem_filter.mp hd).2
        simp [hinmap] at h2
      constructor
      · rw [lcHasRow_eq_isSome]
        cases hlt : lc.title with
        | some t => exact upsertContentsData_isSome_of_title_some _ _ _ _ hlcmem t hlt
        | none =>
          apply upsertContentsData_isSome_mono
          rw [deleteLocalesData_get_not_mem _ _ _ _ _ _ hnotdel]
          have hx := (hnew lc hlcmem).1 hlt
          rw [lcHasRow_eq_isSome] at hx
          exact hx
      · rw [lcHasRow_eq_isSome]
        cases hlc : lc.contentSections with
        | some c => exact upsertContentsData_isSome_of_content_some _ _ _ _ hlcmem c hlc
        | none =>
          apply upsertContentsData_isSome_mono
          rw [deleteLocalesData_get_not_mem _ _ _ _ _ _ hnotdel]
          have hx := (hnew lc hlcmem).2 hlc
          rw [lcHasRow_eq_isSome] at hx
          exact hx
    · rintro ⟨hT, hC⟩
      by_contra hl
      rw [lcHasRow_eq_isSome, upsertContentsData_get_frame _ _ _ _ _ _ hl] at hT
      rw [lcHasRow_eq_isSome, upsertContentsData_get_frame _ _ _ _ _ _ hl] at hC
      by_cases hmem : l ∈ problem.locales
      · have hdel : l ∈ problem.locales.filter
            (fun l2 => !((request.localizedContents.map (fun lc2 => lc2.locale)).contains l2)) :=
          List.mem_filter.mpr ⟨hmem, by simp [hl]⟩
        rw [deleteLocalesData_get_mem _ _ _ _ _ hdel (Or.inl rfl)] at hT
        simp at hT
      · have hnd : ¬ l ∈ problem.locales.filter
            (fun l2 => !((request.localizedContents.map (fun lc2 => lc2.locale)).contains l2)) :=
          fun hd => hmem (List.mem_filter.mp hd).1
        rw [deleteLocalesData_get_not_mem _ _ _ _ _ _ hnd] at hT hC
        exact hmem ((hpre l).mpr ⟨by rw [lcHasRow_eq_isSome]; exact hT,
          by rw [lcHasRow_eq_isSome]; exact hC⟩)

/-- Witness for C2's amended theorem: a concrete creation into the empty
store and a concrete full-field update both end consistent. -/
theorem localesConsistent_after_mutations_witness :
    localesConsistent
      ((createProblem (fun _ => "dj") ⟨7, false⟩ "traditional" exStatement [] emptyDB).2).localizedContents
      (createProblem (fun _ => "dj") ⟨7, false⟩ "traditional" exStatement [] emptyDB).1 ∧
    localesConsistent exDBAfterFull.localizedContents exProblemAfter :=
  localesConsistent_after_mutations (fun _ => "dj") ⟨7, false⟩ "traditional" exStatement []
    emptyDB (by intro r hr; simp [emptyDB] at hr)
    exProblem exFullRequest [] exDB exProblemAfter exDBAfterFull (by rfl)
    (by
      intro l
      simp [exProblem, exDB, emptyDB, lcHasRow])
    (by
      intro lc hlc
      simp only [exFullRequest] at hlc
      rw [List.mem_singleton] at hlc
      subst hlc
      exact ⟨fun hx => Option.noConfusion hx, fun hx => Option.noConfusion hx⟩)

/-- C3: for a successful `updateProblemStatement` whose request lists
pairwise distinct locales: every current locale absent from the request
has both of its rows deleted; every requested entry has each non-null
field stored exactly and each null field left untouched; and the saved
problem's `locales` is exactly the request's locale list. -/
theorem updateProblemStatement_reconciles (problem : ProblemEntity)
    (request : UpdateProblemStatementRequestDto) (tags : List ProblemTagEntity)
    (db : DBState) (p2 : ProblemEntity) (db2 : DBState)
    (hrun : applyUpdateProblemStatement problem request tags db = some (p2, db2))
    (hnd : (request.localizedContents.map (fun lc => lc.locale)).Nodup) :
    p2.locales = request.localizedContents.map (fun lc => lc.locale) ∧
    (∀ l ∈ problem.locales, ¬ l ∈ request.localizedContents.map (fun lc => lc.locale) →
      lcGet db2.localizedContents problem.id LocalizedContentType.PROBLEM_TITLE l = none ∧
      lcGet db2.localizedContents problem.id LocalizedContentType.PROBLEM_CONTENT l = none) ∧
    (∀ lc ∈ request.localizedContents,
      (∀ t, lc.title = some t →
        lcGet db2.localizedContents problem.id LocalizedContentType.PROBLEM_TITLE lc.locale =
          some t) ∧
      (lc.title = none →
        lcGet db2.localizedContents problem.id LocalizedContentType.PROBLEM_TITLE lc.locale =
          lcGet db.localizedContents problem.id LocalizedContentType.PROBLEM_TITLE lc.locale) ∧
      (∀ c, lc.contentSections = some c →
        lcGet db2.localizedContents problem.id LocalizedContentType.PROBLEM_CONTENT lc.locale =
          some (jsonStringify c)) ∧
      (lc.contentSections = none →
        lcGet db2.localizedContents problem.id LocalizedContentType.PROBLEM_CONTENT lc.locale =
          lcGet db.localizedContents problem.id LocalizedContentType.PROBLEM_CONTENT lc.locale)) := by
  obtain ⟨hp2, hlc2⟩ := applyUpdate_some_inv hrun
  refine ⟨by rw [hp2], ?_, ?_⟩
  · intro l hl hnotin
    have hdel : l ∈ problem.locales.filter
        (fun l2 => !((request.localizedContents.map (fun lc => lc.locale)).contains l2)) :=
      List.mem_filter.mpr ⟨hl, by simp [hnotin]⟩
    rw [hlc2]
    constructor
    · rw [upsertContentsData_get_frame _ _ _ _ _ _ hnotin]
      exact deleteLocalesData_get_mem _ _ _ _ _ hdel (Or.inl rfl)
    · rw [upsertContentsData_get_frame _ _ _ _ _ _ hnotin]
      exact deleteLocalesData_get_mem _ _ _ _ _ hdel (Or.inr rfl)
  · intro lc hmem
    have hinmap : lc.locale ∈ request.localizedContents.map (fun lc2 => lc2.locale) :=
      List.mem_map_of_mem _ hmem
    have hnotdel : ¬ lc.locale ∈ problem.locales.filter
        (fun l2 => !((request.localizedContents.map (fun lc2 => lc2.locale)).contains l2)) := by
      intro hd
      have h2 := (List.mem_filter.mp hd).2
      simp [hinmap] at h2
    rw [hlc2]
    refine ⟨?_, ?_, ?_, ?_⟩
    · intro t ht
      exact upsertContentsData_title_some _ _ _ hnd lc hmem t ht
    · intro ht
      rw [upsertContentsData_title_none _ _ _ hnd lc hmem ht,
        deleteLocalesData_get_not_mem _ _ _ _ _ _ hnotdel]
    · intro c hc
      exact upsertContentsData_content_some _ _ _ hnd lc hmem c hc
    · intro hc
      rw [upsertContentsData_content_none _ _ _ hnd lc hmem hc,
        deleteLocalesData_get_not_mem _ _ _ _ _ _ hnotdel]

/-- Witness for C3 on the spec's own scenario: a problem with `en` and
`zh` updated by a request supplying only `en` (title set, content null)
ends with `zh` fully deleted, the `en` title rewritten, the `en` content
untouched, and `locales = [en]`. -/
theorem updateProblemStatement_reconciles_witness :
    exProblemEn.locales = ["en"] ∧
    lcGet exDBEnZhAfter.localizedContents 1 LocalizedContentType.PROBLEM_TITLE "zh" = none ∧
    lcGet exDBEnZhAfter.localizedContents 1 LocalizedContentType.PROBLEM_CONTENT "zh" = none ∧
    lcGet exDBEnZhAfter.localizedContents 1 LocalizedContentType.PROBLEM_TITLE "en" =
      some "tEn2" ∧
    lcGet exDBEnZhAfter.localizedContents 1 LocalizedContentType.PROBLEM_CONTENT "en" =
      lcGet exDBEnZh.localizedContents 1 LocalizedContentType.PROBLEM_CONTENT "en" := by
  have h := updateProblemStatement_reconciles exProblemEnZh exPartialRequest [] exDBEnZh
    exProblemEn exDBEnZhAfter (by rfl) (by decide)
  exact ⟨h.1, (h.2.1 "zh" (by decide) (by decide)).1, (h.2.1 "zh" (by decide) (by decide)).2,
    (h.2.2 ⟨"en", some "tEn2", none⟩ (by decide)).1 "tEn2" rfl,
    (h.2.2 ⟨"en", some "tEn2", none⟩ (by decide)).2.2.2 rfl⟩

end Lyrio
